import Mathlib

/-!
STM32F1 software timers (`timers.c`, `timers.h`)

A shallow embedding of the timer driver: the slot table `Timers_List`, the
tick counter `TickCounter`, the caller-owned `Timers_t` records reached through
pointers, and the operations `Timer_Init`, `Timer_Start`, `Timer_Stop`,
`Timer_Check`, `Timer_IsActive` and `vTIM2InterruptHandler`.

Modelling conventions
* A pointer to a `Timers_t` record is a natural number (its address); a slot
  holds `none` for `NULL` or `some p`.  The argument of `Timer_Start` and
  `Timer_Stop` is a non-null pointer.
* `u32` values are natural numbers, reduced `% 2 ^ 32` where the C arithmetic
  can overflow.  The `u16` argument `millisec` is a natural number; the C
  values are those below `2 ^ 16`.
* A function pointer is a natural number; what calling it does to the driver
  state is given by an environment `call : pFunction → State → State`.
* `Timer_Check` returns, next to the final state, the list of handler
  invocations it made, in the order it made them.
* Interrupts are sequential steps between operations; the bodies of
  `vPortEnterCritical` / `vPortExitCritical` have no effect on this state.
* The loops run on the `u8` index `idx`; `fuel` bounds the iterations left and
  every call site passes `MAX_TIMER`, which is enough to reach the loop exit.
-/

namespace Timers

/-! ## Data model -/

/-- The constant `MAX_TIMER` of `timers.c`, defined as 8. -/
abbrev MAX_TIMER : Nat := 8

/-- The return code `tmOK` of `timers.h`, defined as 0. -/
abbrev tmOK : Nat := 0

/-- The return code `tmERROR` of `timers.h`, defined as 1. -/
abbrev tmERROR : Nat := 1

/-- Address of a caller-owned `Timers_t` record (never `NULL`). -/
abbrev TimerPtr := Nat

/-- A `pFunction` value: the address of a handler. -/
abbrev pFunction := Nat

/-- The record `Timers_t` of `timers.h`. -/
structure Timers_t where
  TimerArmed : Bool
  TimeoutTick : Nat
  TimerHandler : pFunction
deriving DecidableEq, Repr

/-- The driver state: the private data of `timers.c` and the memory holding the
caller's timer records. -/
@[ext]
structure State where
  Timers_List : Fin MAX_TIMER → Option TimerPtr
  TickCounter : Nat
  mem : TimerPtr → Timers_t

/-- One handler invocation made by `Timer_Check`: the slot index being scanned,
the pointer saved in `TempTimer` and the function pointer that was called. -/
structure Event where
  idx : Fin MAX_TIMER
  timer : TimerPtr
  handler : pFunction
deriving DecidableEq, Repr

/-! ## Loops -/

/-- The search loops `for (idx = ..; idx < MAX_TIMER; idx++) { if (hit) break; }`:
the value of `idx` when the loop is left. -/
def searchLoop (hit : Fin MAX_TIMER → Bool) : Nat → Nat → Nat
  | 0, idx => idx
  | fuel + 1, idx =>
    if h : idx < MAX_TIMER then
      if hit ⟨idx, h⟩ then idx else searchLoop hit fuel (idx + 1)
    else idx

/-- The loops `for (idx = ..; idx < MAX_TIMER; idx++) { body }` without `break`. -/
def forLoop {σ : Type} (body : Fin MAX_TIMER → σ → σ) : Nat → Nat → σ → σ
  | 0, _, s => s
  | fuel + 1, idx, s =>
    if h : idx < MAX_TIMER then forLoop body fuel (idx + 1) (body ⟨idx, h⟩ s) else s

/-! ## Operations -/

/-- The assignment `Timers_List[idx] = v;`. -/
def setSlot (s : State) (idx : Fin MAX_TIMER) (v : Option TimerPtr) : State :=
  { s with Timers_List := Function.update s.Timers_List idx v }

/-- The assignment `p->field = ..;`: the record at `p` becomes `f` of its old value. -/
def setRec (s : State) (p : TimerPtr) (f : Timers_t → Timers_t) : State :=
  { s with mem := Function.update s.mem p (f (s.mem p)) }

/-- The effect of `Timer_Init` on the driver data: every slot `NULL`, counter 0.
The configuration of the TIM2 peripheral is outside the state. -/
def Timer_Init (s : State) : State :=
  let s1 := forLoop (fun idx st => setSlot st idx none) MAX_TIMER 0 s
  { s1 with TickCounter := 0 }

/-- The value of `idx` after the first part of `Timer_Start`: the slot of the
timer when it is armed, the first unused slot otherwise, `MAX_TIMER` when the
search fails. -/
def Timer_Start_idx (s : State) (timer : TimerPtr) : Nat :=
  if (s.mem timer).TimerArmed = true then
    searchLoop (fun idx => decide (s.Timers_List idx = some timer)) MAX_TIMER 0
  else
    searchLoop (fun idx => decide (s.Timers_List idx = none)) MAX_TIMER 0

/-- The function `Timer_Start(timer, FunctionPnt, millisec)`: return code and new state. -/
def Timer_Start (s : State) (timer : TimerPtr) (FunctionPnt : pFunction)
    (millisec : Nat) : Nat × State :=
  let idx := Timer_Start_idx s timer
  if h : idx < MAX_TIMER then
    let ActualTickCounter := s.TickCounter
    let FinalTickCnt := (ActualTickCounter + millisec) % 2 ^ 32
    let s1 := setSlot s ⟨idx, h⟩ (some timer)
    -- `Timers_List[idx]` is `timer` from here on
    let s2 := setRec s1 timer (fun r => { r with TimeoutTick := FinalTickCnt })
    let s3 := setRec s2 timer (fun r => { r with TimerHandler := FunctionPnt })
    let s4 := setRec s3 timer (fun r => { r with TimerArmed := true })
    (tmOK, s4)
  else
    (tmERROR, s)

/-- Body of the loop of `Timer_Stop`. -/
def Timer_Stop_body (timer : TimerPtr) (idx : Fin MAX_TIMER) (s : State) : State :=
  if s.Timers_List idx = some timer then
    let s1 := setRec s timer (fun r => { r with TimerArmed := false })
    setSlot s1 idx none
  else s

/-- The function `Timer_Stop(timer)`. -/
def Timer_Stop (s : State) (timer : TimerPtr) : State :=
  forLoop (Timer_Stop_body timer) MAX_TIMER 0 s

/-- Body of the loop of `Timer_Check`; `call` runs a handler. -/
def Timer_Check_body (call : pFunction → State → State) (ActualTickCounter : Nat)
    (idx : Fin MAX_TIMER) (st : State × List Event) : State × List Event :=
  match st.1.Timers_List idx with
  | none => st
  | some p =>
    if (st.1.mem p).TimerArmed = true ∧ (st.1.mem p).TimeoutTick < ActualTickCounter then
      let TempTimer := p
      let s1 := setRec st.1 p (fun r => { r with TimerArmed := false })
      let s2 := setSlot s1 idx none
      let f := (s2.mem TempTimer).TimerHandler
      (call f s2, st.2 ++ [⟨idx, TempTimer, f⟩])
    else st

/-- The function `Timer_Check()`: final state and the handler invocations made, in order. -/
def Timer_Check (call : pFunction → State → State) (s : State) : State × List Event :=
  let ActualTickCounter := s.TickCounter
  forLoop (Timer_Check_body call ActualTickCounter) MAX_TIMER 0 (s, [])

/-- The function `Timer_IsActive()`: the returned flag and the (untouched) state. -/
def Timer_IsActive (s : State) : Bool × State :=
  let idx := searchLoop (fun idx => decide (s.Timers_List idx ≠ none)) MAX_TIMER 0
  -- `RetCode` is set exactly when the loop is left through `break`
  (decide (idx < MAX_TIMER), s)

/-- The interrupt handler `vTIM2InterruptHandler()`: `TickCounter++` on a `u32`. -/
def vTIM2InterruptHandler (s : State) : State :=
  { s with TickCounter := (s.TickCounter + 1) % 2 ^ 32 }

/-- Handlers that leave the driver state alone. -/
def idleCall : pFunction → State → State := fun _ s => s

/-- Number of slots of `Timers_List` that are not `NULL`. -/
def occupiedCount (s : State) : Nat :=
  (List.finRange MAX_TIMER).countP (fun i => (s.Timers_List i).isSome)

/-- A concrete state: every slot `NULL`, counter 0, every record disarmed with
deadline 0 and handler 0. -/
def emptyState : State :=
  { Timers_List := fun _ => none
    TickCounter := 0
    mem := fun _ => { TimerArmed := false, TimeoutTick := 0, TimerHandler := 0 } }

/-- A concrete state whose 8 slots hold the records 0 .. 7, each armed with
deadline 5 and its own handler; the records from address 8 on are disarmed. -/
def fullArmedState : State :=
  { Timers_List := fun i => some i.1
    TickCounter := 0
    mem := fun p => { TimerArmed := decide (p < 8), TimeoutTick := 5, TimerHandler := p } }

/-- The state `Timer_Stop` has produced when its loop has passed the slots below
`k`: the slots among them that held `timer` are `NULL`, and `timer` is disarmed
once one of them did. -/
def stopUpTo (s : State) (timer : TimerPtr) (k : Nat) : State :=
  { Timers_List := fun i =>
      if i.1 < k ∧ s.Timers_List i = some timer then none else s.Timers_List i
    TickCounter := s.TickCounter
    mem := fun q =>
      if q = timer ∧ ∃ i : Fin MAX_TIMER, i.1 < k ∧ s.Timers_List i = some timer then
        { s.mem q with TimerArmed := false }
      else s.mem q }

/-- The test of `Timer_Check` on a record, against the counter of state `s`:
`TimerArmed == TRUE` and `TimeoutTick < TickCounter`. -/
def dueRec (s : State) (q : TimerPtr) : Prop :=
  (s.mem q).TimerArmed = true ∧ (s.mem q).TimeoutTick < s.TickCounter

instance (s : State) (q : TimerPtr) : Decidable (dueRec s q) :=
  inferInstanceAs (Decidable (_ ∧ _))

/-- The invocation expected from slot `i` of state `s`: the slot holds a timer
that passes the test of `Timer_Check`. -/
def dueEvent (s : State) (i : Fin MAX_TIMER) : Option Event :=
  match s.Timers_List i with
  | none => none
  | some p => if dueRec s p then some ⟨i, p, (s.mem p).TimerHandler⟩ else none

/-- The invocation `Timer_Check` makes at slot `i` when handlers are idle: the
slot holds a due timer that no lower slot holds as well. -/
def firesAt (s : State) (i : Fin MAX_TIMER) : Option Event :=
  match s.Timers_List i with
  | none => none
  | some p =>
    if dueRec s p ∧ ∀ j : Fin MAX_TIMER, j < i → s.Timers_List j ≠ some p then
      some ⟨i, p, (s.mem p).TimerHandler⟩
    else none

/-- The function `firesAt` on a `u8` index. -/
def firesAtNat (s : State) (i : Nat) : Option Event :=
  if h : i < MAX_TIMER then firesAt s ⟨i, h⟩ else none

/-- The state `Timer_Check` has produced, with idle handlers, when its loop has
passed the slots below `k`. -/
def checkUpTo (s : State) (k : Nat) : State :=
  { Timers_List := fun i =>
      if i.1 < k ∧ (firesAt s i).isSome then none else s.Timers_List i
    TickCounter := s.TickCounter
    mem := fun q =>
      if dueRec s q ∧ ∃ j : Fin MAX_TIMER, j.1 < k ∧ s.Timers_List j = some q then
        { s.mem q with TimerArmed := false }
      else s.mem q }

/-- No timer occupies two slots. -/
def NoDup (s : State) : Prop :=
  ∀ (i j : Fin MAX_TIMER) (p : TimerPtr),
    s.Timers_List i = some p → s.Timers_List j = some p → i = j

/-- The armed/slot consistency invariant: a record is armed exactly when some
slot references it. -/
def Consistent (s : State) : Prop :=
  ∀ p, (s.mem p).TimerArmed = true ↔ ∃ i, s.Timers_List i = some p

/-- The scenario "arm 8 timers with delay 5": from the state after `Timer_Init`
with all records disarmed, `Timer_Start` is called for the records 10 .. 17 with
the handlers 20 .. 27; the return codes and the state reached. -/
def armEight : List Nat × State :=
  (List.range 8).foldl
    (fun acc k =>
      let r := Timer_Start acc.2 (10 + k) (20 + k) 5
      (acc.1 ++ [r.1], r.2))
    ([], Timer_Init emptyState)

/-- The tick interrupt taken `n` times. -/
def ticks : Nat → State → State
  | 0, s => s
  | n + 1, s => ticks n (vTIM2InterruptHandler s)

/-- A concrete state with record 3 armed and due, held by slots 2 and 5. -/
def twoSlotState : State :=
  { Timers_List := fun i => if i.1 = 2 ∨ i.1 = 5 then some 3 else none
    TickCounter := 9
    mem := fun p => { TimerArmed := decide (p = 3), TimeoutTick := 5, TimerHandler := p } }

/-- The calls a user of the driver and the tick source can make. -/
inductive Op where
  | start (timer : TimerPtr) (FunctionPnt : pFunction) (millisec : Nat)
  | stop (timer : TimerPtr)
  | tick
  | check
deriving DecidableEq, Repr

/-- One call, with handlers that leave the driver state alone. -/
def step (s : State) : Op → State
  | .start timer FunctionPnt millisec => (Timer_Start s timer FunctionPnt millisec).2
  | .stop timer => Timer_Stop s timer
  | .tick => vTIM2InterruptHandler s
  | .check => (Timer_Check idleCall s).1

/-- A sequence of calls, made one after the other. -/
def run (s : State) (ops : List Op) : State :=
  ops.foldl step s

/-- The timer record a call is made on, if any. -/
def Op.target : Op → Option TimerPtr
  | .start timer _ _ => some timer
  | .stop timer => some timer
  | .tick => none
  | .check => none

/-- One run of `Timer_Check`: the tick counter it read at entry and the handler
invocations it made. -/
structure Pass where
  counter : Nat
  events : List Event
deriving DecidableEq, Repr

/-- The runs of `Timer_Check` made by a sequence of calls, in order. -/
def passes : State → List Op → List Pass
  | _, [] => []
  | s, Op.check :: ops =>
    ⟨s.TickCounter, (Timer_Check idleCall s).2⟩ :: passes (step s Op.check) ops
  | s, Op.start timer f d :: ops => passes (step s (Op.start timer f d)) ops
  | s, Op.stop timer :: ops => passes (step s (Op.stop timer)) ops
  | s, Op.tick :: ops => passes (step s Op.tick) ops

/-- How many of the invocations were made for the timer record `p`. -/
def firedCount (p : TimerPtr) (evs : List Event) : Nat :=
  evs.countP (fun e => decide (e.timer = p))

/-- The scenario "dispatch at counters 0 .. 9, then at 11, then at 12": a
`Timer_Check` at counter 0, nine times a tick and a `Timer_Check`, two ticks and
a `Timer_Check`, one tick and a `Timer_Check`. -/
def firingOnceOps : List Op :=
  Op.check :: ((List.replicate 9 [Op.tick, Op.check]).flatten ++
    [Op.tick, Op.tick, Op.check, Op.tick, Op.check])

/-- The record `p` waits for its deadline `D`: it is armed with deadline `D` and
handler `f`, and some slot references it. -/
def Pending (s : State) (p : TimerPtr) (f : pFunction) (D : Nat) : Prop :=
  s.mem p = { TimerArmed := true, TimeoutTick := D, TimerHandler := f } ∧
    ∃ i, s.Timers_List i = some p

/-- The state in which `Timer_Check` calls the handler of the timer `q` found due
in slot `idx`: `q` disarmed, the slot `NULL`. -/
def fireState (s : State) (idx : Fin MAX_TIMER) (q : TimerPtr) : State :=
  setSlot (setRec s q (fun r => { r with TimerArmed := false })) idx none

/-- Handlers among which `f` calls `Timer_Start(p, f, d)` (and drops the return
code) and every other one leaves the driver state alone. -/
def rearmCall (p : TimerPtr) (f : pFunction) (d : Nat) : pFunction → State → State :=
  fun g s => if g = f then (Timer_Start s p f d).2 else s

/-- How many of the invocations called the function `f`. -/
def handlerCount (f : pFunction) (evs : List Event) : Nat :=
  evs.countP (fun e => decide (e.handler = f))

/-- What holds in `Timer_Check` (handlers `rearmCall p f d`, started in `s` with
the due timer `p` in slot `i`) when the loop is about to look at slot `k`: up to
slot `i` the timer waits unchanged and `f` has not been called; after it the
timer is armed again with the new deadline, sits in one slot not above `i`, and
`f` has been called once. -/
def RearmInv (s : State) (p : TimerPtr) (f : pFunction) (d : Nat) (i : Fin MAX_TIMER)
    (k : Nat) (st : State × List Event) : Prop :=
  st.1.TickCounter = s.TickCounter ∧ Consistent st.1 ∧ NoDup st.1 ∧
  (∀ j q, st.1.Timers_List j = some q → q ≠ p → (st.1.mem q).TimerHandler ≠ f) ∧
  ((k ≤ i.1 ∧ st.1.Timers_List i = some p ∧ st.1.mem p = s.mem p ∧
      handlerCount f st.2 = 0) ∨
    (i.1 < k ∧
      st.1.mem p =
        { TimerArmed := true, TimeoutTick := (s.TickCounter + d) % 2 ^ 32, TimerHandler := f } ∧
      (∃ j : Fin MAX_TIMER, j ≤ i ∧ st.1.Timers_List j = some p) ∧
      handlerCount f st.2 = 1))

/-- A concrete reachable state: after `Timer_Init`, the records 10 and 11 are armed
with delay 5 and the handlers 20 and 21, and 7 tick interrupts follow. -/
def rearmDemoState : State :=
  run (Timer_Init emptyState)
    [Op.start 10 20 5, Op.start 11 21 5, Op.tick, Op.tick, Op.tick, Op.tick, Op.tick,
     Op.tick, Op.tick]

/-- A concrete state two ticks before the `u32` counter wraps: every slot `NULL`,
every record disarmed, `TickCounter = 2^32 - 2`. -/
def wrapState : State :=
  { emptyState with TickCounter := 2 ^ 32 - 2 }

/-- The timers held by the slots, in slot order. -/
def slotTimers (s : State) : List TimerPtr :=
  (List.finRange MAX_TIMER).filterMap s.Timers_List

/-- The scenario "arm nine timers": `Timer_Start` for the records 10 .. 18 with
delay 5, after `Timer_Init`. -/
def armNineOps : List Op :=
  (List.range 9).map (fun k => Op.start (10 + k) (20 + k) 5)

/-- A concrete state after a second `Timer_Init`: record 100 was armed with delay 5
and handler 7, then `Timer_Init` ran again; the record is still armed and every
slot is `NULL`. -/
def reinitState : State :=
  Timer_Init (Timer_Start (Timer_Init emptyState) 100 7 5).2

/-! ## Facts about the loops -/

theorem searchLoop_spec (hit : Fin MAX_TIMER → Bool) :
    ∀ fuel idx, MAX_TIMER ≤ idx + fuel → idx ≤ MAX_TIMER →
      idx ≤ searchLoop hit fuel idx ∧ searchLoop hit fuel idx ≤ MAX_TIMER ∧
      (∀ j : Fin MAX_TIMER, idx ≤ j.1 → j.1 < searchLoop hit fuel idx → hit j = false) ∧
      (∀ j : Fin MAX_TIMER, j.1 = searchLoop hit fuel idx → hit j = true) := by
  intro fuel
  induction fuel with
  | zero =>
    intro idx h1 h2
    have : idx = MAX_TIMER := by omega
    subst this
    refine ⟨le_refl _, le_refl _, ?_, ?_⟩
    · intro j hj1 hj2; simp only [searchLoop] at hj2; omega
    · intro j hj; simp only [searchLoop] at hj; omega
  | succ n ih =>
    intro idx h1 h2
    unfold searchLoop
    by_cases h : idx < MAX_TIMER
    · simp only [h, dite_true]
      cases hh : hit ⟨idx, h⟩ with
      | true =>
        simp only [if_true]
        refine ⟨le_refl _, h2, ?_, ?_⟩
        · intro j hj1 hj2; omega
        · intro j hj
          have : j = ⟨idx, h⟩ := Fin.ext hj
          rw [this]; exact hh
      | false =>
        simp only [Bool.false_eq_true, if_false]
        obtain ⟨a, b, c, d⟩ := ih (idx + 1) (by omega) (by omega)
        refine ⟨by omega, b, ?_, d⟩
        intro j hj1 hj2
        by_cases e : j.1 = idx
        · have : j = ⟨idx, h⟩ := Fin.ext e
          rw [this]; exact hh
        · exact c j (by omega) hj2
    · simp only [h, dite_false]
      have : idx = MAX_TIMER := by omega
      subst this
      refine ⟨le_refl _, le_refl _, ?_, ?_⟩
      · intro j hj1 hj2; omega
      · intro j hj; omega

theorem searchLoop_none (hit : Fin MAX_TIMER → Bool) (h : ∀ j, hit j = false) :
    searchLoop hit MAX_TIMER 0 = MAX_TIMER := by
  obtain ⟨_, b, _, d⟩ := searchLoop_spec hit MAX_TIMER 0 (by omega) (by omega)
  by_contra hne
  have hlt : searchLoop hit MAX_TIMER 0 < MAX_TIMER := by omega
  have := d ⟨_, hlt⟩ rfl
  rw [h] at this
  exact Bool.false_ne_true this

theorem searchLoop_some (hit : Fin MAX_TIMER → Bool) (i : Fin MAX_TIMER) (h : hit i = true) :
    ∃ r : Fin MAX_TIMER, searchLoop hit MAX_TIMER 0 = r.1 ∧ hit r = true ∧
      ∀ j : Fin MAX_TIMER, j < r → hit j = false := by
  obtain ⟨_, b, c, d⟩ := searchLoop_spec hit MAX_TIMER 0 (by omega) (by omega)
  have hlt : searchLoop hit MAX_TIMER 0 < MAX_TIMER := by
    by_contra hne
    have := c i (Nat.zero_le _) (by omega)
    rw [h] at this
    exact Bool.false_ne_true this.symm
  refine ⟨⟨_, hlt⟩, rfl, d _ rfl, ?_⟩
  intro j hj
  exact c j (Nat.zero_le _) hj

/-! ## Timer_Start -/

/-- The state `Timer_Start` produces once a slot index has been found. -/
theorem Timer_Start_of_idx (s : State) (timer : TimerPtr) (f : pFunction) (d : Nat)
    (i : Fin MAX_TIMER) (h : Timer_Start_idx s timer = i.1) :
    Timer_Start s timer f d =
      (tmOK, { Timers_List := Function.update s.Timers_List i (some timer)
               TickCounter := s.TickCounter
               mem := Function.update s.mem timer
                 { TimerArmed := true, TimeoutTick := (s.TickCounter + d) % 2 ^ 32,
                   TimerHandler := f } }) := by
  have hlt : Timer_Start_idx s timer < MAX_TIMER := by rw [h]; exact i.2
  have hi : (⟨Timer_Start_idx s timer, hlt⟩ : Fin MAX_TIMER) = i := Fin.ext h
  simp only [Timer_Start, hlt, dite_true, hi, setRec, setSlot, Function.update_same,
    Function.update_idem]

theorem Timer_Start_of_nidx (s : State) (timer : TimerPtr) (f : pFunction) (d : Nat)
    (h : Timer_Start_idx s timer = MAX_TIMER) :
    Timer_Start s timer f d = (tmERROR, s) := by
  simp [Timer_Start, h]

/-- C1. With all 8 slots occupied and the timer's `TimerArmed` FALSE, `Timer_Start`
returns `tmERROR` and the state after the call is the state before it (slots,
timer records and tick counter). -/
theorem Timer_Start_full_returns_error (s : State) (timer : TimerPtr) (f : pFunction) (d : Nat)
    (hfull : ∀ i, s.Timers_List i ≠ none) (harm : (s.mem timer).TimerArmed = false) :
    Timer_Start s timer f d = (tmERROR, s) := by
  apply Timer_Start_of_nidx
  simp only [Timer_Start_idx, harm, Bool.false_eq_true, if_false]
  apply searchLoop_none
  intro j
  simpa using hfull j

theorem Timer_Start_full_returns_error_witness :
    (∀ i, fullArmedState.Timers_List i ≠ none) ∧ (fullArmedState.mem 100).TimerArmed = false ∧
      Timer_Start fullArmedState 100 7 5 = (tmERROR, fullArmedState) :=
  ⟨by decide, by decide,
    Timer_Start_full_returns_error fullArmedState 100 7 5 (by decide) (by decide)⟩

/-- C2. With an empty slot and the timer's `TimerArmed` FALSE, `Timer_Start` returns
`tmOK`, puts the timer in the lowest-index empty slot `i`, sets its record to
armed with deadline `(TickCounter + delay) mod 2^32` and the given handler, and
leaves the other slots, the other records and the tick counter as they were. -/
theorem Timer_Start_claims_first_free (s : State) (timer : TimerPtr) (f : pFunction) (d : Nat)
    (hfree : ∃ i, s.Timers_List i = none) (harm : (s.mem timer).TimerArmed = false) :
    ∃ i : Fin MAX_TIMER, s.Timers_List i = none ∧ (∀ j, j < i → s.Timers_List j ≠ none) ∧
      (Timer_Start s timer f d).1 = tmOK ∧
      (Timer_Start s timer f d).2.Timers_List i = some timer ∧
      (∀ j, j ≠ i → (Timer_Start s timer f d).2.Timers_List j = s.Timers_List j) ∧
      (Timer_Start s timer f d).2.mem timer =
        { TimerArmed := true, TimeoutTick := (s.TickCounter + d) % 2 ^ 32, TimerHandler := f } ∧
      (∀ q, q ≠ timer → (Timer_Start s timer f d).2.mem q = s.mem q) ∧
      (Timer_Start s timer f d).2.TickCounter = s.TickCounter := by
  obtain ⟨i0, hi0⟩ := hfree
  obtain ⟨r, hr, hhit, hmin⟩ :=
    searchLoop_some (fun idx => decide (s.Timers_List idx = none)) i0 (by simpa using hi0)
  have hidx : Timer_Start_idx s timer = r.1 := by
    simp only [Timer_Start_idx, harm, Bool.false_eq_true, if_false]
    exact hr
  rw [Timer_Start_of_idx s timer f d r hidx]
  refine ⟨r, by simpa using hhit, ?_, rfl, ?_, ?_, ?_, ?_, rfl⟩
  · intro j hj; simpa using hmin j hj
  · simp
  · intro j hj; simp [Function.update_noteq hj]
  · simp
  · intro q hq; simp [Function.update_noteq hq]

theorem Timer_Start_claims_first_free_witness :
    ∃ i : Fin MAX_TIMER, emptyState.Timers_List i = none ∧
      (∀ j, j < i → emptyState.Timers_List j ≠ none) ∧
      (Timer_Start emptyState 100 7 5).1 = tmOK ∧
      (Timer_Start emptyState 100 7 5).2.Timers_List i = some 100 ∧
      (∀ j, j ≠ i → (Timer_Start emptyState 100 7 5).2.Timers_List j = emptyState.Timers_List j) ∧
      (Timer_Start emptyState 100 7 5).2.mem 100 =
        { TimerArmed := true, TimeoutTick := (emptyState.TickCounter + 5) % 2 ^ 32,
          TimerHandler := 7 } ∧
      (∀ q, q ≠ 100 → (Timer_Start emptyState 100 7 5).2.mem q = emptyState.mem q) ∧
      (Timer_Start emptyState 100 7 5).2.TickCounter = emptyState.TickCounter :=
  Timer_Start_claims_first_free emptyState 100 7 5 ⟨0, rfl⟩ rfl

/-- C3. When the timer's `TimerArmed` is TRUE and slot `i` references it,
`Timer_Start` returns `tmOK` (whether or not a slot is free), the slot table is
the same as before (so the timer stays in slot `i` and the number of occupied
slots is the same), the timer's deadline becomes `(TickCounter + delay) mod 2^32`
and its handler the given one; it stays armed, and the other records and the
tick counter are unchanged. -/
theorem Timer_Start_rearms_in_place (s : State) (timer : TimerPtr) (f : pFunction) (d : Nat)
    (i : Fin MAX_TIMER) (harm : (s.mem timer).TimerArmed = true)
    (hslot : s.Timers_List i = some timer) :
    (Timer_Start s timer f d).1 = tmOK ∧
      (Timer_Start s timer f d).2.Timers_List = s.Timers_List ∧
      (Timer_Start s timer f d).2.Timers_List i = some timer ∧
      occupiedCount (Timer_Start s timer f d).2 = occupiedCount s ∧
      (Timer_Start s timer f d).2.mem timer =
        { TimerArmed := true, TimeoutTick := (s.TickCounter + d) % 2 ^ 32, TimerHandler := f } ∧
      (∀ q, q ≠ timer → (Timer_Start s timer f d).2.mem q = s.mem q) ∧
      (Timer_Start s timer f d).2.TickCounter = s.TickCounter := by
  obtain ⟨r, hr, hhit, _⟩ :=
    searchLoop_some (fun idx => decide (s.Timers_List idx = some timer)) i (by simpa using hslot)
  have hidx : Timer_Start_idx s timer = r.1 := by
    simp only [Timer_Start_idx, harm, if_true]
    exact hr
  have hrs : s.Timers_List r = some timer := by simpa using hhit
  have hupd : Function.update s.Timers_List r (some timer) = s.Timers_List := by
    rw [← hrs]; exact Function.update_eq_self r s.Timers_List
  rw [Timer_Start_of_idx s timer f d r hidx]
  refine ⟨rfl, hupd, ?_, ?_, ?_, ?_, rfl⟩
  · simp only [hupd]; exact hslot
  · simp only [occupiedCount, hupd]
  · simp
  · intro q hq; simp [Function.update_noteq hq]

theorem Timer_Start_rearms_in_place_witness :
    (Timer_Start fullArmedState 3 9 20).1 = tmOK ∧
      (Timer_Start fullArmedState 3 9 20).2.Timers_List = fullArmedState.Timers_List ∧
      (Timer_Start fullArmedState 3 9 20).2.Timers_List 3 = some 3 ∧
      occupiedCount (Timer_Start fullArmedState 3 9 20).2 = occupiedCount fullArmedState ∧
      (Timer_Start fullArmedState 3 9 20).2.mem 3 =
        { TimerArmed := true, TimeoutTick := (fullArmedState.TickCounter + 20) % 2 ^ 32,
          TimerHandler := 9 } ∧
      (∀ q, q ≠ 3 → (Timer_Start fullArmedState 3 9 20).2.mem q = fullArmedState.mem q) ∧
      (Timer_Start fullArmedState 3 9 20).2.TickCounter = fullArmedState.TickCounter :=
  Timer_Start_rearms_in_place fullArmedState 3 9 20 3 (by decide) (by decide)

/-! ## Loop invariants -/

theorem forLoop_induct {σ : Type} (body : Fin MAX_TIMER → σ → σ) (P : Nat → σ → Prop) :
    ∀ fuel idx s, MAX_TIMER ≤ idx + fuel → idx ≤ MAX_TIMER → P idx s →
      (∀ (i : Fin MAX_TIMER) (t : σ), idx ≤ i.1 → P i.1 t → P (i.1 + 1) (body i t)) →
      P MAX_TIMER (forLoop body fuel idx s) := by
  intro fuel
  induction fuel with
  | zero =>
    intro idx s h1 h2 h0 _
    have : idx = MAX_TIMER := by omega
    subst this
    simpa [forLoop] using h0
  | succ n ih =>
    intro idx s h1 h2 h0 hstep
    unfold forLoop
    by_cases h : idx < MAX_TIMER
    · simp only [h, dite_true]
      apply ih (idx + 1) _ (by omega) (by omega)
      · exact hstep ⟨idx, h⟩ s (le_refl _) h0
      · intro i t hi hP
        exact hstep i t (by omega) hP
    · simp only [h, dite_false]
      have : idx = MAX_TIMER := by omega
      subst this
      exact h0

/-! ## Timer_Init -/

/-- Closed form of `Timer_Init`: all slots `NULL`, counter 0, records untouched. -/
theorem Timer_Init_eq (s : State) :
    Timer_Init s = { Timers_List := fun _ => none, TickCounter := 0, mem := s.mem } := by
  have h := forLoop_induct (fun idx st => setSlot st idx none)
    (fun k st => (∀ i : Fin MAX_TIMER, i.1 < k → st.Timers_List i = none) ∧ st.mem = s.mem)
    MAX_TIMER 0 s (by omega) (by omega)
    ⟨fun i hi => absurd hi (Nat.not_lt_zero _), rfl⟩
    (by
      intro i t _ ht
      refine ⟨?_, ht.2⟩
      intro j hj
      by_cases e : j = i
      · subst e; simp [setSlot]
      · have hne : j.1 ≠ i.1 := fun h => e (Fin.ext h)
        simp only [setSlot, Function.update_noteq e]
        exact ht.1 j (by omega))
  unfold Timer_Init
  ext1
  · funext i; exact h.1 i i.2
  · rfl
  · exact h.2

/-! ## Timer_Stop -/

theorem stopUpTo_zero (s : State) (timer : TimerPtr) : stopUpTo s timer 0 = s := by
  ext1 <;> simp [stopUpTo]

theorem Timer_Stop_body_stopUpTo (s : State) (timer : TimerPtr) (i : Fin MAX_TIMER) :
    Timer_Stop_body timer i (stopUpTo s timer i.1) = stopUpTo s timer (i.1 + 1) := by
  have hslot : (stopUpTo s timer i.1).Timers_List i = s.Timers_List i := by
    simp [stopUpTo]
  unfold Timer_Stop_body
  rw [hslot]
  by_cases h : s.Timers_List i = some timer
  · simp only [h, if_true]
    ext1
    · funext j
      by_cases hj : j = i
      · subst hj
        simp [setSlot, setRec, stopUpTo, h]
      · have hne : j.1 ≠ i.1 := fun e => hj (Fin.ext e)
        simp only [setSlot, setRec, stopUpTo, Function.update_noteq hj]
        by_cases hs : s.Timers_List j = some timer
        · simp only [hs, and_true]
          have : (j.1 < i.1 + 1) ↔ (j.1 < i.1) := by omega
          simp only [this]
        · simp [hs]
    · simp [setSlot, setRec, stopUpTo]
    · funext q
      have hex : ∃ k : Fin MAX_TIMER, k.1 < i.1 + 1 ∧ s.Timers_List k = some timer :=
        ⟨i, by omega, h⟩
      by_cases hq : q = timer
      · subst hq
        simp only [setSlot, setRec, stopUpTo, Function.update_same, hex, and_self, if_true,
          true_and]
        split <;> rfl
      · simp [setSlot, setRec, stopUpTo, Function.update_noteq hq, hq]
  · simp only [h, if_false]
    ext1
    · funext j
      simp only [stopUpTo]
      by_cases hs : s.Timers_List j = some timer
      · have hne : j.1 ≠ i.1 := fun e => h (by rw [← Fin.ext e]; exact hs)
        have : (j.1 < i.1 + 1) ↔ (j.1 < i.1) := by omega
        simp only [this]
      · simp [hs]
    · rfl
    · funext q
      simp only [stopUpTo]
      have : (∃ k : Fin MAX_TIMER, k.1 < i.1 + 1 ∧ s.Timers_List k = some timer) ↔
          (∃ k : Fin MAX_TIMER, k.1 < i.1 ∧ s.Timers_List k = some timer) := by
        constructor
        · rintro ⟨k, hk, hks⟩
          have hne : k.1 ≠ i.1 := fun e => h (by rw [← Fin.ext e]; exact hks)
          exact ⟨k, by omega, hks⟩
        · rintro ⟨k, hk, hks⟩
          exact ⟨k, by omega, hks⟩
      simp only [this]

/-- Closed form of `Timer_Stop`. -/
theorem Timer_Stop_eq (s : State) (timer : TimerPtr) :
    Timer_Stop s timer = stopUpTo s timer MAX_TIMER := by
  unfold Timer_Stop
  apply forLoop_induct (Timer_Stop_body timer) (fun k st => st = stopUpTo s timer k)
    MAX_TIMER 0 s (by omega) (by omega)
  · exact (stopUpTo_zero s timer).symm
  · intro i t _ ht
    rw [ht]
    exact Timer_Stop_body_stopUpTo s timer i

/-- C6. For a timer referenced by at least one slot, after `Timer_Stop` its
`TimerArmed` is FALSE and no slot references it; the slots that did not reference
it (those of other timers, and the empty ones), the other records, the timer's
own `TimeoutTick` and `TimerHandler`, and the tick counter are unchanged. -/
theorem Timer_Stop_releases (s : State) (timer : TimerPtr)
    (h : ∃ i, s.Timers_List i = some timer) :
    ((Timer_Stop s timer).mem timer).TimerArmed = false ∧
      (∀ i, (Timer_Stop s timer).Timers_List i ≠ some timer) ∧
      (∀ i, s.Timers_List i ≠ some timer →
        (Timer_Stop s timer).Timers_List i = s.Timers_List i) ∧
      (∀ q, q ≠ timer → (Timer_Stop s timer).mem q = s.mem q) ∧
      ((Timer_Stop s timer).mem timer).TimeoutTick = (s.mem timer).TimeoutTick ∧
      ((Timer_Stop s timer).mem timer).TimerHandler = (s.mem timer).TimerHandler ∧
      (Timer_Stop s timer).TickCounter = s.TickCounter := by
  obtain ⟨i0, hi0⟩ := h
  rw [Timer_Stop_eq]
  refine ⟨?_, ?_, ?_, ?_, ?_, ?_, rfl⟩
  · have hex2 : ∃ i, s.Timers_List i = some timer := ⟨i0, hi0⟩
    simp [stopUpTo, hex2]
  · intro i
    simp only [stopUpTo]
    by_cases hs : s.Timers_List i = some timer
    · simp [hs]
    · simp [hs]
  · intro i hs
    simp [stopUpTo, hs]
  · intro q hq
    simp [stopUpTo, hq]
  · simp only [stopUpTo]; split <;> rfl
  · simp only [stopUpTo]; split <;> rfl

theorem Timer_Stop_releases_witness :
    ((Timer_Stop fullArmedState 3).mem 3).TimerArmed = false ∧
      (∀ i, (Timer_Stop fullArmedState 3).Timers_List i ≠ some 3) ∧
      (∀ i, fullArmedState.Timers_List i ≠ some 3 →
        (Timer_Stop fullArmedState 3).Timers_List i = fullArmedState.Timers_List i) ∧
      (∀ q, q ≠ 3 → (Timer_Stop fullArmedState 3).mem q = fullArmedState.mem q) ∧
      ((Timer_Stop fullArmedState 3).mem 3).TimeoutTick = (fullArmedState.mem 3).TimeoutTick ∧
      ((Timer_Stop fullArmedState 3).mem 3).TimerHandler = (fullArmedState.mem 3).TimerHandler ∧
      (Timer_Stop fullArmedState 3).TickCounter = fullArmedState.TickCounter :=
  Timer_Stop_releases fullArmedState 3 ⟨3, rfl⟩

theorem Timer_Stop_unreferenced (s : State) (timer : TimerPtr)
    (h : ∀ i, s.Timers_List i ≠ some timer) : Timer_Stop s timer = s := by
  rw [Timer_Stop_eq]
  ext1
  · funext i; simp [stopUpTo, h i]
  · rfl
  · funext q; simp [stopUpTo, h]

/-- C7. `Timer_Stop` on a timer that no slot references returns the state it was
given, and for every state and timer a second `Timer_Stop` changes nothing after
the first. -/
theorem Timer_Stop_idempotent (s : State) (timer : TimerPtr) :
    ((∀ i, s.Timers_List i ≠ some timer) → Timer_Stop s timer = s) ∧
      Timer_Stop (Timer_Stop s timer) timer = Timer_Stop s timer := by
  refine ⟨Timer_Stop_unreferenced s timer, ?_⟩
  apply Timer_Stop_unreferenced
  intro i
  rw [Timer_Stop_eq]
  simp only [stopUpTo]
  by_cases hs : s.Timers_List i = some timer
  · simp [hs]
  · simp [hs]

theorem Timer_Stop_idempotent_witness :
    (∀ i, emptyState.Timers_List i ≠ some 3) ∧ Timer_Stop emptyState 3 = emptyState ∧
      Timer_Stop (Timer_Stop fullArmedState 3) 3 = Timer_Stop fullArmedState 3 :=
  ⟨by decide, (Timer_Stop_idempotent emptyState 3).1 (by decide),
    (Timer_Stop_idempotent fullArmedState 3).2⟩

/-! ## Timer_IsActive -/

/-- C9. `Timer_IsActive` returns TRUE exactly when some slot is not `NULL` (so
FALSE exactly when no slot is occupied, as right after `Timer_Init`), and the
state after the call is the state before it. -/
theorem Timer_IsActive_iff_occupied (s : State) :
    ((Timer_IsActive s).1 = true ↔ ∃ i, s.Timers_List i ≠ none) ∧
      ((Timer_IsActive s).1 = false ↔ occupiedCount s = 0) ∧
      (Timer_IsActive (Timer_Init s)).1 = false ∧
      (Timer_IsActive s).2 = s := by
  have key : (Timer_IsActive s).1 = true ↔ ∃ i, s.Timers_List i ≠ none := by
    simp only [Timer_IsActive, decide_eq_true_eq]
    constructor
    · intro hlt
      obtain ⟨_, _, _, d⟩ := searchLoop_spec (fun idx => decide (s.Timers_List idx ≠ none))
        MAX_TIMER 0 (by omega) (by omega)
      have := d ⟨_, hlt⟩ rfl
      exact ⟨_, by simpa using this⟩
    · rintro ⟨i, hi⟩
      obtain ⟨r, hr, _, _⟩ := searchLoop_some (fun idx => decide (s.Timers_List idx ≠ none)) i
        (by simpa using hi)
      rw [hr]; exact r.2
  refine ⟨key, ?_, ?_, rfl⟩
  · rw [← Bool.not_eq_true, key]
    simp only [occupiedCount, List.countP_eq_zero, List.mem_finRange, true_implies]
    constructor
    · intro h i hi
      apply h
      exact ⟨i, by intro e; rw [e] at hi; exact Bool.false_ne_true hi⟩
    · rintro h ⟨i, hi⟩
      apply h i
      cases hs : s.Timers_List i with
      | none => exact absurd hs hi
      | some _ => rfl
  · rw [← Bool.not_eq_true, Timer_IsActive, decide_eq_true_eq]
    have hnone : ∀ j, (fun idx => decide ((Timer_Init s).Timers_List idx ≠ none)) j = false := by
      intro j; simp [Timer_Init_eq]
    rw [searchLoop_none _ hnone]
    omega

/-! ## Timer_Check with idle handlers -/

theorem exists_lt_succ_iff (Q : Fin MAX_TIMER → Prop) (i : Fin MAX_TIMER) :
    (∃ j : Fin MAX_TIMER, j.1 < i.1 + 1 ∧ Q j) ↔ (∃ j : Fin MAX_TIMER, j.1 < i.1 ∧ Q j) ∨ Q i := by
  constructor
  · rintro ⟨j, hj, hq⟩
    by_cases e : j = i
    · subst e; exact Or.inr hq
    · have hne : j.1 ≠ i.1 := fun h => e (Fin.ext h)
      exact Or.inl ⟨j, by omega, hq⟩
  · rintro (⟨j, hj, hq⟩ | hq)
    · exact ⟨j, by omega, hq⟩
    · exact ⟨i, by omega, hq⟩

theorem checkUpTo_zero (s : State) : checkUpTo s 0 = s := by
  ext1 <;> simp [checkUpTo]

theorem checkUpTo_slot_self (s : State) (i : Fin MAX_TIMER) :
    (checkUpTo s i.1).Timers_List i = s.Timers_List i := by
  simp [checkUpTo]

/-- The loop of `Timer_Check` leaves `checkUpTo s i` as it is when slot `i` does
not fire. -/
theorem checkUpTo_succ_of_none (s : State) (i : Fin MAX_TIMER) (h : firesAt s i = none)
    (hq : ∀ q, s.Timers_List i = some q →
      ¬ dueRec s q ∨ ∃ j : Fin MAX_TIMER, j.1 < i.1 ∧ s.Timers_List j = some q) :
    checkUpTo s (i.1 + 1) = checkUpTo s i.1 := by
  ext1
  · funext j
    simp only [checkUpTo]
    by_cases e : j = i
    · subst e; simp [h]
    · have hne : j.1 ≠ i.1 := fun h => e (Fin.ext h)
      have : (j.1 < i.1 + 1) ↔ (j.1 < i.1) := by omega
      simp only [this]
  · rfl
  · funext q
    simp only [checkUpTo, exists_lt_succ_iff (fun j => s.Timers_List j = some q) i]
    by_cases hd : dueRec s q
    · by_cases hi : s.Timers_List i = some q
      · rcases hq q hi with h1 | h1
        · exact absurd hd h1
        · rw [if_pos ⟨hd, Or.inl h1⟩, if_pos ⟨hd, h1⟩]
      · simp only [hi, or_false]
    · rw [if_neg (fun h => hd h.1), if_neg (fun h => hd h.1)]

theorem Timer_Check_body_idle (call : pFunction → State → State)
    (hcall : ∀ f t, call f t = t) (s : State) (i : Fin MAX_TIMER) (tr : List Event) :
    Timer_Check_body call s.TickCounter i (checkUpTo s i.1, tr) =
      (checkUpTo s (i.1 + 1), tr ++ (firesAt s i).toList) := by
  unfold Timer_Check_body
  simp only [checkUpTo_slot_self]
  cases hs : s.Timers_List i with
  | none =>
    have hf : firesAt s i = none := by simp [firesAt, hs]
    rw [checkUpTo_succ_of_none s i hf (by intro q hq; rw [hs] at hq; cases hq)]
    simp [hf]
  | some p =>
    simp only
    by_cases hd : dueRec s p
    · by_cases hex : ∃ j : Fin MAX_TIMER, j.1 < i.1 ∧ s.Timers_List j = some p
      · have hf : firesAt s i = none := by
          obtain ⟨j, hj, hjs⟩ := hex
          simp only [firesAt, hs]
          rw [if_neg]
          intro hall
          exact hall.2 j hj hjs
        have hm : ((checkUpTo s i.1).mem p).TimerArmed = false := by
          simp only [checkUpTo]
          rw [if_pos ⟨hd, hex⟩]
        rw [checkUpTo_succ_of_none s i hf
          (by intro q hq; rw [hs] at hq; cases hq; exact Or.inr hex)]
        simp [hm, hf]
      · have hall : ∀ j : Fin MAX_TIMER, j < i → s.Timers_List j ≠ some p := by
          intro j hj hjs
          exact hex ⟨j, hj, hjs⟩
        have hf : firesAt s i = some ⟨i, p, (s.mem p).TimerHandler⟩ := by
          simp only [firesAt, hs]
          rw [if_pos ⟨hd, hall⟩]
        have hm : (checkUpTo s i.1).mem p = s.mem p := by
          simp only [checkUpTo]
          rw [if_neg]
          intro h; exact hex h.2
        have hc : ((checkUpTo s i.1).mem p).TimerArmed = true ∧
            ((checkUpTo s i.1).mem p).TimeoutTick < s.TickCounter := by
          rw [hm]; exact hd
        rw [if_pos hc, hcall, hf]
        simp only [Option.toList, Prod.mk.injEq]
        refine ⟨?_, ?_⟩
        · ext1
          · funext j
            by_cases e : j = i
            · subst e; simp [setSlot, setRec, checkUpTo, hf]
            · have hne : j.1 ≠ i.1 := fun h => e (Fin.ext h)
              have : (j.1 < i.1 + 1) ↔ (j.1 < i.1) := by omega
              simp only [setSlot, setRec, checkUpTo, Function.update_noteq e, this]
          · rfl
          · funext q
            by_cases e : q = p
            · subst e
              have hex2 : ∃ j : Fin MAX_TIMER, j.1 < i.1 + 1 ∧ s.Timers_List j = some q :=
                ⟨i, by omega, hs⟩
              simp only [setSlot, setRec, Function.update_same, hm]
              simp only [checkUpTo]
              rw [if_pos ⟨hd, hex2⟩]
            · have hi : s.Timers_List i ≠ some q := by
                rw [hs]; intro h; injection h with h; exact e h.symm
              simp only [setSlot, setRec, Function.update_noteq e, checkUpTo,
                exists_lt_succ_iff (fun j => s.Timers_List j = some q) i, hi, or_false]
        · simp [setSlot, setRec, hm]
    · have hf : firesAt s i = none := by
        simp only [firesAt, hs]
        rw [if_neg]
        intro h; exact hd h.1
      have hm : (checkUpTo s i.1).mem p = s.mem p := by
        simp only [checkUpTo]
        rw [if_neg]
        intro h; exact hd h.1
      have hc : ¬ (((checkUpTo s i.1).mem p).TimerArmed = true ∧
          ((checkUpTo s i.1).mem p).TimeoutTick < s.TickCounter) := by
        rw [hm]; exact hd
      rw [if_neg hc, checkUpTo_succ_of_none s i hf
        (by intro q hq; rw [hs] at hq; cases hq; exact Or.inl hd)]
      simp [hf]

/-- Closed form of `Timer_Check` when the handlers leave the state alone. -/
theorem Timer_Check_idle_eq (call : pFunction → State → State)
    (hcall : ∀ f t, call f t = t) (s : State) :
    Timer_Check call s =
      (checkUpTo s MAX_TIMER, (List.range MAX_TIMER).filterMap (firesAtNat s)) := by
  unfold Timer_Check
  apply forLoop_induct (Timer_Check_body call s.TickCounter)
    (fun k st => st = (checkUpTo s k, (List.range k).filterMap (firesAtNat s)))
    MAX_TIMER 0 (s, []) (by omega) (by omega)
  · simp [checkUpTo_zero]
  · intro i t _ ht
    rw [ht, Timer_Check_body_idle call hcall s i]
    simp only [List.range_succ, List.filterMap_append, Prod.mk.injEq, true_and]
    have hi : firesAtNat s i.1 = firesAt s i := by
      simp only [firesAtNat, i.2, dite_true, Fin.eta]
    cases hf : firesAt s i with
    | none => simp [hi, hf]
    | some e => simp [hi, hf]

theorem filterMap_range_firesAtNat (s : State) :
    (List.range MAX_TIMER).filterMap (firesAtNat s) =
      (List.finRange MAX_TIMER).filterMap (firesAt s) := by
  rfl

theorem firesAt_eq_dueEvent (s : State) (hnd : NoDup s) (i : Fin MAX_TIMER) :
    firesAt s i = dueEvent s i := by
  unfold firesAt dueEvent
  cases hs : s.Timers_List i with
  | none => rfl
  | some p =>
    simp only
    by_cases hd : dueRec s p
    · have hall : ∀ j : Fin MAX_TIMER, j < i → s.Timers_List j ≠ some p := by
        intro j hj hjs
        have := hnd j i p hjs hs
        subst this
        exact absurd hj (lt_irrefl _)
      rw [if_pos ⟨hd, hall⟩, if_pos hd]
    · rw [if_neg (fun h => hd h.1), if_neg hd]

theorem dueEvent_idx (s : State) (i : Fin MAX_TIMER) (e : Event) (h : e ∈ dueEvent s i) :
    e.idx = i := by
  unfold dueEvent at h
  cases hs : s.Timers_List i with
  | none => rw [hs] at h; cases h
  | some p =>
    rw [hs] at h
    simp only at h
    by_cases hd : dueRec s p
    · rw [if_pos hd] at h
      cases h; rfl
    · rw [if_neg hd] at h
      cases h

/-- C4. When no timer occupies two slots and the handlers leave the state alone,
the invocations made by one `Timer_Check` are, in order, those of the slots whose
timer is armed with `TimeoutTick` below the counter read at entry, taken by
increasing slot index (so the slot indices of the invocations are strictly
increasing and each such slot is served once); on return each of those timers
is disarmed and its slot is `NULL`.  In particular, 8 timers armed with delay 5
after `Timer_Init` all fire, in slot order, in the one `Timer_Check` run at
counter 6. -/
theorem Timer_Check_fires_due_slots_in_order :
    (∀ (call : pFunction → State → State) (s : State),
      (∀ f t, call f t = t) → NoDup s →
        (Timer_Check call s).2 = (List.finRange MAX_TIMER).filterMap (dueEvent s) ∧
        (Timer_Check call s).2.Pairwise (fun a b => a.idx < b.idx) ∧
        (∀ i p, s.Timers_List i = some p → dueRec s p →
          ((Timer_Check call s).1.mem p).TimerArmed = false ∧
          (Timer_Check call s).1.Timers_List i = none)) ∧
    (armEight.1 = [tmOK, tmOK, tmOK, tmOK, tmOK, tmOK, tmOK, tmOK] ∧
      (ticks 6 armEight.2).TickCounter = 6 ∧
      (Timer_Check idleCall (ticks 6 armEight.2)).2 =
        [⟨0, 10, 20⟩, ⟨1, 11, 21⟩, ⟨2, 12, 22⟩, ⟨3, 13, 23⟩,
         ⟨4, 14, 24⟩, ⟨5, 15, 25⟩, ⟨6, 16, 26⟩, ⟨7, 17, 27⟩]) := by
  refine ⟨?_, ?_⟩
  · intro call s hcall hnd
    have htr : (Timer_Check call s).2 = (List.finRange MAX_TIMER).filterMap (dueEvent s) := by
      rw [Timer_Check_idle_eq call hcall s, filterMap_range_firesAtNat]
      simp only [funext (firesAt_eq_dueEvent s hnd)]
    refine ⟨htr, ?_, ?_⟩
    · rw [htr]
      apply List.Pairwise.filterMap (dueEvent s) _ (List.pairwise_lt_finRange MAX_TIMER)
      intro a a' haa b hb b' hb'
      rw [dueEvent_idx s a b hb, dueEvent_idx s a' b' hb']
      exact haa
    · intro i p hs hd
      rw [Timer_Check_idle_eq call hcall s]
      have hf : firesAt s i = some ⟨i, p, (s.mem p).TimerHandler⟩ := by
        rw [firesAt_eq_dueEvent s hnd]
        simp only [dueEvent, hs]
        rw [if_pos hd]
      constructor
      · simp only [checkUpTo]
        rw [if_pos ⟨hd, ⟨i, i.2, hs⟩⟩]
      · simp only [checkUpTo]
        rw [if_pos ⟨i.2, by rw [hf]; rfl⟩]
  · refine ⟨by decide, by decide, by decide⟩

theorem noDup_of_slots (s : State)
    (h : ∀ i j : Fin MAX_TIMER, s.Timers_List i = s.Timers_List j →
      s.Timers_List i ≠ none → i = j) : NoDup s := by
  intro i j p hi hj
  apply h i j (by rw [hi, hj])
  rw [hi]; exact Option.some_ne_none p

theorem Timer_Check_fires_due_slots_in_order_witness :
    NoDup (ticks 6 armEight.2) ∧
      (Timer_Check idleCall (ticks 6 armEight.2)).2 =
        (List.finRange MAX_TIMER).filterMap (dueEvent (ticks 6 armEight.2)) ∧
      (Timer_Check idleCall (ticks 6 armEight.2)).2.Pairwise (fun a b => a.idx < b.idx) ∧
      (∀ i p, (ticks 6 armEight.2).Timers_List i = some p → dueRec (ticks 6 armEight.2) p →
        ((Timer_Check idleCall (ticks 6 armEight.2)).1.mem p).TimerArmed = false ∧
        (Timer_Check idleCall (ticks 6 armEight.2)).1.Timers_List i = none) :=
  ⟨noDup_of_slots _ (by decide),
    Timer_Check_fires_due_slots_in_order.1 idleCall (ticks 6 armEight.2) (fun _ _ => rfl)
      (noDup_of_slots _ (by decide))⟩

/-! ## The invariant of the slot table -/

theorem Timer_Start_cases (s : State) (timer : TimerPtr) (f : pFunction) (d : Nat) :
    Timer_Start s timer f d = (tmERROR, s) ∨
    ∃ i : Fin MAX_TIMER,
      (if (s.mem timer).TimerArmed = true then s.Timers_List i = some timer
        else s.Timers_List i = none) ∧
      Timer_Start s timer f d =
        (tmOK, { Timers_List := Function.update s.Timers_List i (some timer)
                 TickCounter := s.TickCounter
                 mem := Function.update s.mem timer
                   { TimerArmed := true, TimeoutTick := (s.TickCounter + d) % 2 ^ 32,
                     TimerHandler := f } }) := by
  by_cases hlt : Timer_Start_idx s timer < MAX_TIMER
  · right
    refine ⟨⟨_, hlt⟩, ?_, Timer_Start_of_idx s timer f d ⟨_, hlt⟩ rfl⟩
    by_cases ha : (s.mem timer).TimerArmed = true
    · rw [if_pos ha]
      have h := (searchLoop_spec (fun idx => decide (s.Timers_List idx = some timer))
        MAX_TIMER 0 (by omega) (by omega)).2.2.2 ⟨_, hlt⟩ (by simp [Timer_Start_idx, ha])
      simpa using h
    · rw [if_neg ha]
      have h := (searchLoop_spec (fun idx => decide (s.Timers_List idx = none))
        MAX_TIMER 0 (by omega) (by omega)).2.2.2 ⟨_, hlt⟩ (by simp [Timer_Start_idx, ha])
      simpa using h
  · left
    simp [Timer_Start, hlt]

theorem Timer_Start_preserves (s : State) (timer : TimerPtr) (f : pFunction) (d : Nat)
    (hc : Consistent s) (hn : NoDup s) :
    Consistent (Timer_Start s timer f d).2 ∧ NoDup (Timer_Start s timer f d).2 := by
  rcases Timer_Start_cases s timer f d with h | ⟨i, hi, h⟩
  · rw [h]; exact ⟨hc, hn⟩
  · rw [h]
    by_cases ha : (s.mem timer).TimerArmed = true
    · rw [if_pos ha] at hi
      have hupd : Function.update s.Timers_List i (some timer) = s.Timers_List := by
        rw [← hi]; exact Function.update_eq_self i s.Timers_List
      simp only [hupd]
      refine ⟨?_, hn⟩
      intro q
      by_cases e : q = timer
      · subst e
        simp only [Function.update_same, true_iff]
        exact ⟨i, hi⟩
      · simp only [Function.update_noteq e]
        exact hc q
    · rw [if_neg ha] at hi
      have hno : ∀ j, s.Timers_List j ≠ some timer := by
        intro j hj
        exact ha ((hc timer).2 ⟨j, hj⟩)
      refine ⟨?_, ?_⟩
      · intro q
        by_cases e : q = timer
        · subst e
          simp only [Function.update_same, true_iff]
          exact ⟨i, by simp⟩
        · simp only [Function.update_noteq e]
          rw [hc q]
          constructor
          · rintro ⟨j, hj⟩
            have hji : j ≠ i := by
              intro e2; rw [e2, hi] at hj; cases hj
            exact ⟨j, by rw [Function.update_noteq hji]; exact hj⟩
          · rintro ⟨j, hj⟩
            by_cases hji : j = i
            · subst hji
              rw [Function.update_same] at hj
              injection hj with hj
              exact absurd hj.symm e
            · rw [Function.update_noteq hji] at hj
              exact ⟨j, hj⟩
      · intro a b p ha' hb'
        simp only at ha' hb'
        by_cases hai : a = i
        · by_cases hbi : b = i
          · rw [hai, hbi]
          · subst hai
            rw [Function.update_same] at ha'
            rw [Function.update_noteq hbi] at hb'
            injection ha' with ha'
            subst ha'
            exact absurd hb' (hno b)
        · by_cases hbi : b = i
          · subst hbi
            rw [Function.update_same] at hb'
            rw [Function.update_noteq hai] at ha'
            injection hb' with hb'
            subst hb'
            exact absurd ha' (hno a)
          · rw [Function.update_noteq hai] at ha'
            rw [Function.update_noteq hbi] at hb'
            exact hn a b p ha' hb'

theorem Timer_Stop_preserves (s : State) (timer : TimerPtr)
    (hc : Consistent s) (hn : NoDup s) :
    Consistent (Timer_Stop s timer) ∧ NoDup (Timer_Stop s timer) := by
  rw [Timer_Stop_eq]
  refine ⟨?_, ?_⟩
  · intro q
    simp only [stopUpTo]
    by_cases e : q = timer
    · subst e
      by_cases hex : ∃ i : Fin MAX_TIMER, i.1 < MAX_TIMER ∧ s.Timers_List i = some q
      · rw [if_pos ⟨rfl, hex⟩]
        simp only [Bool.false_eq_true, false_iff, not_exists]
        intro j
        by_cases hj : s.Timers_List j = some q
        · rw [if_pos ⟨j.2, hj⟩]; exact fun h => by cases h
        · rw [if_neg (fun h => hj h.2)]; exact hj
      · rw [if_neg (fun h => hex h.2)]
        have hno : ∀ j, s.Timers_List j ≠ some q := fun j hj => hex ⟨j, j.2, hj⟩
        rw [hc q]
        constructor
        · rintro ⟨j, hj⟩; exact absurd hj (hno j)
        · rintro ⟨j, hj⟩
          rw [if_neg (fun h => hno j h.2)] at hj
          exact absurd hj (hno j)
    · rw [if_neg (fun h => e h.1), hc q]
      constructor
      · rintro ⟨j, hj⟩
        refine ⟨j, ?_⟩
        rw [if_neg]
        · exact hj
        · intro h
          rw [hj] at h
          injection h.2 with h2
          exact e h2
      · rintro ⟨j, hj⟩
        by_cases hjt : s.Timers_List j = some timer
        · rw [if_pos ⟨j.2, hjt⟩] at hj; cases hj
        · rw [if_neg (fun h => hjt h.2)] at hj
          exact ⟨j, hj⟩
  · intro a b p ha hb
    simp only [stopUpTo] at ha hb
    by_cases hat : s.Timers_List a = some timer
    · rw [if_pos ⟨a.2, hat⟩] at ha; cases ha
    · by_cases hbt : s.Timers_List b = some timer
      · rw [if_pos ⟨b.2, hbt⟩] at hb; cases hb
      · rw [if_neg (fun h => hat h.2)] at ha
        rw [if_neg (fun h => hbt h.2)] at hb
        exact hn a b p ha hb

theorem Timer_Check_preserves (call : pFunction → State → State)
    (hcall : ∀ f t, call f t = t) (s : State) (hc : Consistent s) (hn : NoDup s) :
    Consistent (Timer_Check call s).1 ∧ NoDup (Timer_Check call s).1 := by
  rw [Timer_Check_idle_eq call hcall s]
  have hslot : ∀ (j : Fin MAX_TIMER) (q : TimerPtr), s.Timers_List j = some q →
      ((checkUpTo s MAX_TIMER).Timers_List j = some q ↔ ¬ dueRec s q) := by
    intro j q hj
    simp only [checkUpTo]
    by_cases hd : dueRec s q
    · have hf : (firesAt s j).isSome = true := by
        rw [firesAt_eq_dueEvent s hn, dueEvent]
        simp only [hj]
        rw [if_pos hd]; rfl
      rw [if_pos ⟨j.2, hf⟩]
      simp [hd]
    · have hf : ¬ ((firesAt s j).isSome = true) := by
        rw [firesAt_eq_dueEvent s hn, dueEvent]
        simp only [hj]
        rw [if_neg hd]; simp
      rw [if_neg (fun h => hf h.2)]
      simp [hd, hj]
  have hsub : ∀ (j : Fin MAX_TIMER) (q : TimerPtr),
      (checkUpTo s MAX_TIMER).Timers_List j = some q → s.Timers_List j = some q := by
    intro j q hj
    simp only [checkUpTo] at hj
    split at hj
    · cases hj
    · exact hj
  refine ⟨?_, ?_⟩
  · intro q
    by_cases hd : dueRec s q
    · obtain ⟨j, hj⟩ := (hc q).1 hd.1
      have hm : ((checkUpTo s MAX_TIMER).mem q).TimerArmed = false := by
        simp only [checkUpTo]
        rw [if_pos ⟨hd, ⟨j, j.2, hj⟩⟩]
      rw [hm]
      simp only [Bool.false_eq_true, false_iff, not_exists]
      intro k hk
      exact ((hslot k q (hsub k q hk)).1 hk) hd
    · have hm : (checkUpTo s MAX_TIMER).mem q = s.mem q := by
        simp only [checkUpTo]
        rw [if_neg (fun h => hd h.1)]
      rw [hm, hc q]
      constructor
      · rintro ⟨j, hj⟩
        exact ⟨j, (hslot j q hj).2 hd⟩
      · rintro ⟨j, hj⟩
        exact ⟨j, hsub j q hj⟩
  · intro a b p ha hb
    exact hn a b p (hsub a p ha) (hsub b p hb)

theorem step_preserves (s : State) (o : Op) (hc : Consistent s) (hn : NoDup s) :
    Consistent (step s o) ∧ NoDup (step s o) := by
  cases o with
  | start timer f d => exact Timer_Start_preserves s timer f d hc hn
  | stop timer => exact Timer_Stop_preserves s timer hc hn
  | tick => exact ⟨hc, hn⟩
  | check => exact Timer_Check_preserves idleCall (fun _ _ => rfl) s hc hn

theorem run_preserves (ops : List Op) :
    ∀ s, Consistent s → NoDup s → Consistent (run s ops) ∧ NoDup (run s ops) := by
  induction ops with
  | nil => intro s hc hn; exact ⟨hc, hn⟩
  | cons o ops ih =>
    intro s hc hn
    have h := step_preserves s o hc hn
    exact ih (step s o) h.1 h.2

theorem Timer_Init_good (s0 : State) (h0 : ∀ p, (s0.mem p).TimerArmed = false) :
    Consistent (Timer_Init s0) ∧ NoDup (Timer_Init s0) := by
  rw [Timer_Init_eq]
  refine ⟨?_, ?_⟩
  · intro p
    simp [h0 p]
  · intro i j p hi
    simp at hi

/-- C8. In every state reached from the state after `Timer_Init`, taken with all
records disarmed, by a sequence of `Timer_Start`, `Timer_Stop`, tick-interrupt
and `Timer_Check` calls (handlers leaving the state alone), a record's
`TimerArmed` is TRUE if and only if some slot references it. -/
theorem reachable_armed_iff_referenced (s0 : State) (ops : List Op)
    (h0 : ∀ p, (s0.mem p).TimerArmed = false) (p : TimerPtr) :
    ((run (Timer_Init s0) ops).mem p).TimerArmed = true ↔
      ∃ i, (run (Timer_Init s0) ops).Timers_List i = some p :=
  (run_preserves ops (Timer_Init s0) (Timer_Init_good s0 h0).1 (Timer_Init_good s0 h0).2).1 p

theorem reachable_armed_iff_referenced_witness :
    (∀ p, (emptyState.mem p).TimerArmed = false) ∧
      (((run (Timer_Init emptyState)
          [Op.start 10 20 5, Op.start 11 21 0, Op.tick, Op.check, Op.stop 10]).mem 11).TimerArmed
        = true ↔
      ∃ i, (run (Timer_Init emptyState)
          [Op.start 10 20 5, Op.start 11 21 0, Op.tick, Op.check, Op.stop 10]).Timers_List i
        = some 11) :=
  ⟨fun _ => rfl,
    reachable_armed_iff_referenced emptyState
      [Op.start 10 20 5, Op.start 11 21 0, Op.tick, Op.check, Op.stop 10] (fun _ => rfl) 11⟩

/-! ## One timer through the runs of Timer_Check -/

theorem firesAt_timer (s : State) (i : Fin MAX_TIMER) (e : Event) (h : firesAt s i = some e) :
    s.Timers_List i = some e.timer ∧ dueRec s e.timer ∧
      (∀ j : Fin MAX_TIMER, j < i → s.Timers_List j ≠ some e.timer) ∧
      e.handler = (s.mem e.timer).TimerHandler := by
  unfold firesAt at h
  cases hs : s.Timers_List i with
  | none => rw [hs] at h; cases h
  | some q =>
    rw [hs] at h
    simp only at h
    split at h
    · rename_i hc
      cases h
      exact ⟨rfl, hc.1, hc.2, rfl⟩
    · cases h

theorem firedCount_range (s : State) (p : TimerPtr) :
    ∀ k, k ≤ MAX_TIMER →
      firedCount p ((List.range k).filterMap (firesAtNat s)) =
        if dueRec s p ∧ ∃ j : Fin MAX_TIMER, j.1 < k ∧ s.Timers_List j = some p then 1 else 0 := by
  intro k
  induction k with
  | zero =>
    intro _
    simp [firedCount]
  | succ k ih =>
    intro hk
    have hlt : k < MAX_TIMER := by omega
    have hex := exists_lt_succ_iff (fun j => s.Timers_List j = some p) ⟨k, hlt⟩
    simp only at hex
    rw [List.range_succ, List.filterMap_append, firedCount, List.countP_append]
    have ih2 := ih (by omega)
    rw [firedCount] at ih2
    rw [ih2]
    simp only [hex]
    have hnat : firesAtNat s k = firesAt s ⟨k, hlt⟩ := by
      simp only [firesAtNat, hlt, dite_true]
    by_cases hd : dueRec s p
    · by_cases hprev : ∃ j : Fin MAX_TIMER, j.1 < k ∧ s.Timers_List j = some p
      · rw [if_pos ⟨hd, hprev⟩, if_pos ⟨hd, Or.inl hprev⟩]
        cases hf : firesAt s ⟨k, hlt⟩ with
        | none => simp [hnat, hf]
        | some e =>
          have he := firesAt_timer s ⟨k, hlt⟩ e hf
          have hne : e.timer ≠ p := by
            intro e1
            obtain ⟨j, hj, hjs⟩ := hprev
            exact he.2.2.1 j hj (by rw [e1]; exact hjs)
          simp [hnat, hf, hne]
      · rw [if_neg (fun h => hprev h.2)]
        by_cases hk2 : s.Timers_List ⟨k, hlt⟩ = some p
        · rw [if_pos ⟨hd, Or.inr hk2⟩]
          have hf : firesAt s ⟨k, hlt⟩ = some ⟨⟨k, hlt⟩, p, (s.mem p).TimerHandler⟩ := by
            simp only [firesAt, hk2]
            rw [if_pos]
            refine ⟨hd, ?_⟩
            intro j hj hjs
            exact hprev ⟨j, hj, hjs⟩
          simp [hnat, hf]
        · rw [if_neg (fun h => h.2.elim hprev hk2)]
          cases hf : firesAt s ⟨k, hlt⟩ with
          | none => simp [hnat, hf]
          | some e =>
            have he := firesAt_timer s ⟨k, hlt⟩ e hf
            have hne : e.timer ≠ p := by
              intro e1
              exact hk2 (by rw [← e1]; exact he.1)
            simp [hnat, hf, hne]
    · rw [if_neg (fun h => hd h.1), if_neg (fun h => hd h.1)]
      cases hf : firesAt s ⟨k, hlt⟩ with
      | none => simp [hnat, hf]
      | some e =>
        have he := firesAt_timer s ⟨k, hlt⟩ e hf
        have hne : e.timer ≠ p := by
          intro e1
          exact hd (by rw [← e1]; exact he.2.1)
        simp [hnat, hf, hne]

/-- How often one `Timer_Check` invokes the handler of record `p`. -/
theorem Timer_Check_firedCount (call : pFunction → State → State)
    (hcall : ∀ f t, call f t = t) (s : State) (p : TimerPtr) :
    firedCount p (Timer_Check call s).2 =
      if dueRec s p ∧ ∃ j : Fin MAX_TIMER, s.Timers_List j = some p then 1 else 0 := by
  rw [Timer_Check_idle_eq call hcall s, firedCount_range s p MAX_TIMER (le_refl _)]
  have : (∃ j : Fin MAX_TIMER, j.1 < MAX_TIMER ∧ s.Timers_List j = some p) ↔
      ∃ j : Fin MAX_TIMER, s.Timers_List j = some p :=
    ⟨fun ⟨j, _, h⟩ => ⟨j, h⟩, fun ⟨j, h⟩ => ⟨j, j.2, h⟩⟩
  simp only [this]

theorem Timer_Check_event_handler (call : pFunction → State → State)
    (hcall : ∀ f t, call f t = t) (s : State) (e : Event)
    (he : e ∈ (Timer_Check call s).2) : e.handler = (s.mem e.timer).TimerHandler := by
  rw [Timer_Check_idle_eq call hcall s, filterMap_range_firesAtNat, List.mem_filterMap] at he
  obtain ⟨i, _, hi⟩ := he
  exact (firesAt_timer s i e hi).2.2.2

theorem Timer_Start_other (s : State) (q : TimerPtr) (g : pFunction) (d : Nat) (p : TimerPtr)
    (hne : q ≠ p) :
    (Timer_Start s q g d).2.mem p = s.mem p ∧
      (Timer_Start s q g d).2.TickCounter = s.TickCounter ∧
      ∀ i, s.Timers_List i = some p → (Timer_Start s q g d).2.Timers_List i = some p := by
  rcases Timer_Start_cases s q g d with h | ⟨i, hi, h⟩
  · rw [h]; exact ⟨rfl, rfl, fun _ h => h⟩
  · rw [h]
    refine ⟨by simp [Function.update_noteq hne.symm], rfl, ?_⟩
    intro j hj
    have hji : j ≠ i := by
      intro e
      subst e
      split at hi
      · rw [hj] at hi; injection hi with hi; exact hne hi.symm
      · rw [hj] at hi; cases hi
    simp only [Function.update_noteq hji]
    exact hj

theorem Timer_Stop_other (s : State) (q p : TimerPtr) (hne : q ≠ p) :
    (Timer_Stop s q).mem p = s.mem p ∧
      ∀ i, s.Timers_List i = some p → (Timer_Stop s q).Timers_List i = some p := by
  rw [Timer_Stop_eq]
  refine ⟨?_, ?_⟩
  · simp only [stopUpTo]
    rw [if_neg (fun h => hne h.1.symm)]
  · intro i hi
    simp only [stopUpTo]
    rw [if_neg]
    · exact hi
    · intro h
      rw [hi] at h
      injection h.2 with h2
      exact hne h2.symm

theorem step_other_mem (s : State) (o : Op) (p : TimerPtr)
    (ho : o.target ≠ some p) (hnc : o ≠ Op.check) :
    (step s o).mem p = s.mem p ∧
      ∀ i, s.Timers_List i = some p → (step s o).Timers_List i = some p := by
  cases o with
  | start q g d =>
    have hne : q ≠ p := fun e => ho (by rw [e]; rfl)
    exact ⟨(Timer_Start_other s q g d p hne).1, (Timer_Start_other s q g d p hne).2.2⟩
  | stop q =>
    have hne : q ≠ p := fun e => ho (by rw [e]; rfl)
    exact Timer_Stop_other s q p hne
  | tick => exact ⟨rfl, fun _ h => h⟩
  | check => exact absurd rfl hnc

theorem step_pending (s : State) (o : Op) (p : TimerPtr) (f : pFunction) (D : Nat)
    (ho : o.target ≠ some p) (hnc : o ≠ Op.check) (h : Pending s p f D) :
    Pending (step s o) p f D := by
  obtain ⟨hm, i, hi⟩ := h
  have := step_other_mem s o p ho hnc
  exact ⟨by rw [this.1]; exact hm, i, this.2 i hi⟩

theorem check_pending_early (s : State) (p : TimerPtr) (f : pFunction) (D : Nat)
    (h : Pending s p f D) (hle : s.TickCounter ≤ D) :
    Pending (step s Op.check) p f D ∧ firedCount p (Timer_Check idleCall s).2 = 0 := by
  obtain ⟨hm, i, hi⟩ := h
  have hd : ¬ dueRec s p := by
    intro hd
    have := hd.2
    rw [hm] at this
    simp only at this
    omega
  refine ⟨⟨?_, i, ?_⟩, ?_⟩
  · simp only [step, Timer_Check_idle_eq idleCall (fun _ _ => rfl) s, checkUpTo]
    rw [if_neg (fun h => hd h.1)]
    exact hm
  · simp only [step, Timer_Check_idle_eq idleCall (fun _ _ => rfl) s, checkUpTo]
    have hf : firesAt s i = none := by
      simp only [firesAt, hi]
      rw [if_neg (fun h => hd h.1)]
    rw [hf, if_neg (fun h => by simp at h)]
    exact hi
  · rw [Timer_Check_firedCount idleCall (fun _ _ => rfl) s p, if_neg (fun h => hd h.1)]

theorem check_pending_due (s : State) (p : TimerPtr) (f : pFunction) (D : Nat)
    (h : Pending s p f D) (hlt : D < s.TickCounter) :
    ((step s Op.check).mem p).TimerArmed = false ∧
      firedCount p (Timer_Check idleCall s).2 = 1 := by
  obtain ⟨hm, i, hi⟩ := h
  have hd : dueRec s p := by
    constructor
    · rw [hm]
    · rw [hm]; exact hlt
  refine ⟨?_, ?_⟩
  · simp only [step, Timer_Check_idle_eq idleCall (fun _ _ => rfl) s, checkUpTo]
    rw [if_pos ⟨hd, ⟨i, i.2, hi⟩⟩]
  · rw [Timer_Check_firedCount idleCall (fun _ _ => rfl) s p, if_pos ⟨hd, ⟨i, hi⟩⟩]

theorem check_idle (s : State) (p : TimerPtr) (h : (s.mem p).TimerArmed = false) :
    ((step s Op.check).mem p).TimerArmed = false ∧
      firedCount p (Timer_Check idleCall s).2 = 0 := by
  have hd : ¬ dueRec s p := by
    intro hd
    rw [hd.1] at h
    cases h
  refine ⟨?_, ?_⟩
  · simp only [step, Timer_Check_idle_eq idleCall (fun _ _ => rfl) s, checkUpTo]
    rw [if_neg (fun h => hd h.1)]
    exact h
  · rw [Timer_Check_firedCount idleCall (fun _ _ => rfl) s p, if_neg (fun h => hd h.1)]

theorem passes_cons (s : State) (o : Op) (ops : List Op) :
    passes s (o :: ops) =
      if o = Op.check then
        ⟨s.TickCounter, (Timer_Check idleCall s).2⟩ :: passes (step s o) ops
      else passes (step s o) ops := by
  cases o <;> simp [passes]

theorem idle_passes (p : TimerPtr) (ops : List Op) :
    ∀ s, (s.mem p).TimerArmed = false → (∀ o ∈ ops, o.target ≠ some p) →
      ∀ e ∈ passes s ops, firedCount p e.events = 0 := by
  induction ops with
  | nil => intro s _ _ e he; simp [passes] at he
  | cons o ops ih =>
    intro s hs hops e he
    have ho := hops o (List.mem_cons_self _ _)
    have hrest : ∀ o' ∈ ops, o'.target ≠ some p :=
      fun o' ho' => hops o' (List.mem_cons_of_mem _ ho')
    rw [passes_cons] at he
    by_cases hc : o = Op.check
    · subst hc
      rw [if_pos rfl] at he
      rcases List.mem_cons.1 he with h1 | h1
      · rw [h1]; exact (check_idle s p hs).2
      · exact ih _ (check_idle s p hs).1 hrest e h1
    · rw [if_neg hc] at he
      refine ih (step s o) ?_ hrest e he
      rw [(step_other_mem s o p ho hc).1]; exact hs

theorem pending_passes (p : TimerPtr) (f : pFunction) (D : Nat) (ops : List Op) :
    ∀ s, Pending s p f D → (∀ o ∈ ops, o.target ≠ some p) →
      (∀ pre e post, passes s ops = pre ++ e :: post →
        firedCount p e.events =
          if D < e.counter ∧ ∀ e' ∈ pre, e'.counter ≤ D then 1 else 0) ∧
      ((∀ e ∈ passes s ops, e.counter ≤ D) → Pending (run s ops) p f D) := by
  induction ops with
  | nil =>
    intro s hs _
    refine ⟨?_, fun _ => hs⟩
    intro pre e post h
    simp [passes] at h
  | cons o ops ih =>
    intro s hs hops
    have ho := hops o (List.mem_cons_self _ _)
    have hrest : ∀ o' ∈ ops, o'.target ≠ some p :=
      fun o' ho' => hops o' (List.mem_cons_of_mem _ ho')
    rw [passes_cons]
    by_cases hc : o = Op.check
    · subst hc
      rw [if_pos rfl]
      by_cases hle : s.TickCounter ≤ D
      · have h1 := check_pending_early s p f D hs hle
        have ih1 := ih (step s Op.check) h1.1 hrest
        refine ⟨?_, ?_⟩
        · intro pre e post heq
          cases pre with
          | nil =>
            simp only [List.nil_append, List.cons.injEq] at heq
            rw [← heq.1]
            simp only
            rw [h1.2, if_neg (fun h => by omega)]
          | cons e0 pre1 =>
            simp only [List.cons_append, List.cons.injEq] at heq
            rw [ih1.1 pre1 e post heq.2]
            have : (∀ e' ∈ e0 :: pre1, e'.counter ≤ D) ↔ ∀ e' ∈ pre1, e'.counter ≤ D := by
              simp only [List.mem_cons, forall_eq_or_imp, ← heq.1]
              exact ⟨fun h => h.2, fun h => ⟨hle, h⟩⟩
            simp only [this]
        · intro hall
          exact ih1.2 (fun e he => hall e (List.mem_cons_of_mem _ he))
      · have hlt : D < s.TickCounter := by omega
        have h1 := check_pending_due s p f D hs hlt
        refine ⟨?_, ?_⟩
        · intro pre e post heq
          cases pre with
          | nil =>
            simp only [List.nil_append, List.cons.injEq] at heq
            rw [← heq.1]
            simp only
            rw [h1.2, if_pos ⟨hlt, fun e' he' => by cases he'⟩]
          | cons e0 pre1 =>
            simp only [List.cons_append, List.cons.injEq] at heq
            have hmem : e ∈ passes (step s Op.check) ops := by
              rw [heq.2]; simp
            rw [idle_passes p ops _ h1.1 hrest e hmem, if_neg]
            intro h
            have := h.2 e0 (List.mem_cons_self _ _)
            rw [← heq.1] at this
            simp only at this
            omega
        · intro hall
          have := hall _ (List.mem_cons_self _ _)
          simp only at this
          omega
    · rw [if_neg hc]
      exact ih (step s o) (step_pending s o p f D ho hc hs) hrest

theorem pending_passes_handler (p : TimerPtr) (f : pFunction) (D : Nat) (ops : List Op) :
    ∀ s, Pending s p f D → (∀ o ∈ ops, o.target ≠ some p) →
      ∀ e ∈ passes s ops, ∀ ev ∈ e.events, ev.timer = p → ev.handler = f := by
  induction ops with
  | nil => intro s _ _ e he; simp [passes] at he
  | cons o ops ih =>
    intro s hs hops e he ev hev hp
    have ho := hops o (List.mem_cons_self _ _)
    have hrest : ∀ o' ∈ ops, o'.target ≠ some p :=
      fun o' ho' => hops o' (List.mem_cons_of_mem _ ho')
    rw [passes_cons] at he
    by_cases hc : o = Op.check
    · subst hc
      rw [if_pos rfl] at he
      rcases List.mem_cons.1 he with h1 | h1
      · rw [h1] at hev
        simp only at hev
        rw [Timer_Check_event_handler idleCall (fun _ _ => rfl) s ev hev, hp, hs.1]
      · by_cases hle : s.TickCounter ≤ D
        · exact ih _ (check_pending_early s p f D hs hle).1 hrest e h1 ev hev hp
        · have h0 := idle_passes p ops _ (check_pending_due s p f D hs (by omega)).1 hrest e h1
          rw [firedCount, List.countP_eq_zero] at h0
          have := h0 ev hev
          simp [hp] at this
    · rw [if_neg hc] at he
      exact ih (step s o) (step_pending s o p f D ho hc hs) hrest e he ev hev hp

theorem Timer_Start_pending (s : State) (p : TimerPtr) (f : pFunction) (d : Nat)
    (hok : (Timer_Start s p f d).1 = tmOK) :
    Pending (Timer_Start s p f d).2 p f ((s.TickCounter + d) % 2 ^ 32) := by
  rcases Timer_Start_cases s p f d with h | ⟨i, _, h⟩
  · rw [h] at hok
    cases hok
  · rw [h]
    exact ⟨by simp, i, by simp⟩

/-- C10. Let a timer be armed by a successful `Timer_Start` at tick `t` with delay
`d`, `t + d < 2^32`, and let any calls follow that are not `Timer_Start` or
`Timer_Stop` on that timer (handlers leaving the state alone).  Then in each run
of `Timer_Check` the timer's handler is invoked once if the counter read at
entry is above `t + d` and no earlier run had a counter above `t + d`, and not at
all otherwise; the handler invoked for it is the one given; and as long as no
run had a counter above `t + d` the timer is still armed.  In the scenario
`t = 0`, `d = 10` the runs at counters 0 .. 9 invoke nothing, the run at counter
11 invokes the handler once and the run at counter 12 invokes nothing. -/
theorem Timer_fires_once_after_deadline :
    (∀ (s : State) (p : TimerPtr) (f : pFunction) (d : Nat) (ops : List Op),
      s.TickCounter + d < 2 ^ 32 → (Timer_Start s p f d).1 = tmOK →
      (∀ o ∈ ops, o.target ≠ some p) →
        (∀ pre e post, passes (Timer_Start s p f d).2 ops = pre ++ e :: post →
          firedCount p e.events =
            (if s.TickCounter + d < e.counter ∧ ∀ e' ∈ pre, e'.counter ≤ s.TickCounter + d
              then 1 else 0) ∧
          ∀ ev ∈ e.events, ev.timer = p → ev.handler = f) ∧
        ((∀ e ∈ passes (Timer_Start s p f d).2 ops, e.counter ≤ s.TickCounter + d) →
          ((run (Timer_Start s p f d).2 ops).mem p).TimerArmed = true)) ∧
    passes (Timer_Start (Timer_Init emptyState) 100 7 10).2 firingOnceOps =
      [⟨0, []⟩, ⟨1, []⟩, ⟨2, []⟩, ⟨3, []⟩, ⟨4, []⟩, ⟨5, []⟩, ⟨6, []⟩, ⟨7, []⟩, ⟨8, []⟩,
       ⟨9, []⟩, ⟨11, [⟨0, 100, 7⟩]⟩, ⟨12, []⟩] := by
  refine ⟨?_, by decide⟩
  intro s p f d ops hd hok hops
  have hp := Timer_Start_pending s p f d hok
  rw [Nat.mod_eq_of_lt hd] at hp
  have h := pending_passes p f (s.TickCounter + d) ops _ hp hops
  refine ⟨?_, ?_⟩
  · intro pre e post heq
    refine ⟨h.1 pre e post heq, ?_⟩
    apply pending_passes_handler p f (s.TickCounter + d) ops _ hp hops e
    rw [heq]; simp
  · intro hall
    have := (h.2 hall).1
    rw [this]

theorem Timer_fires_once_after_deadline_witness :
    (Timer_Init emptyState).TickCounter + 10 < 2 ^ 32 ∧
      (Timer_Start (Timer_Init emptyState) 100 7 10).1 = tmOK ∧
      (∀ o ∈ firingOnceOps, o.target ≠ some 100) ∧
      (∀ pre e post,
        passes (Timer_Start (Timer_Init emptyState) 100 7 10).2 firingOnceOps =
          pre ++ e :: post →
        firedCount 100 e.events =
          (if (Timer_Init emptyState).TickCounter + 10 < e.counter ∧
              ∀ e' ∈ pre, e'.counter ≤ (Timer_Init emptyState).TickCounter + 10
            then 1 else 0) ∧
        ∀ ev ∈ e.events, ev.timer = 100 → ev.handler = 7) ∧
      ((∀ e ∈ passes (Timer_Start (Timer_Init emptyState) 100 7 10).2 firingOnceOps,
          e.counter ≤ (Timer_Init emptyState).TickCounter + 10) →
        ((run (Timer_Start (Timer_Init emptyState) 100 7 10).2 firingOnceOps).mem 100).TimerArmed
          = true) :=
  ⟨by decide, by decide, by decide,
    Timer_fires_once_after_deadline.1 (Timer_Init emptyState) 100 7 10 firingOnceOps
      (by decide) (by decide) (by decide)⟩

/-! ## Rearming from the handler -/

theorem Timer_Start_free_form (s : State) (timer : TimerPtr) (f : pFunction) (d : Nat)
    (i0 : Fin MAX_TIMER) (hfree : s.Timers_List i0 = none)
    (harm : (s.mem timer).TimerArmed = false) :
    ∃ r : Fin MAX_TIMER, r ≤ i0 ∧ s.Timers_List r = none ∧
      Timer_Start s timer f d =
        (tmOK, { Timers_List := Function.update s.Timers_List r (some timer)
                 TickCounter := s.TickCounter
                 mem := Function.update s.mem timer
                   { TimerArmed := true, TimeoutTick := (s.TickCounter + d) % 2 ^ 32,
                     TimerHandler := f } }) := by
  obtain ⟨r, hr, hhit, hmin⟩ :=
    searchLoop_some (fun idx => decide (s.Timers_List idx = none)) i0 (by simpa using hfree)
  have hidx : Timer_Start_idx s timer = r.1 := by
    simp only [Timer_Start_idx, harm, Bool.false_eq_true, if_false]
    exact hr
  refine ⟨r, ?_, by simpa using hhit, Timer_Start_of_idx s timer f d r hidx⟩
  by_contra hlt
  have := hmin i0 (lt_of_not_le hlt)
  simp [hfree] at this

theorem Timer_Check_body_fire (call : pFunction → State → State) (c : Nat)
    (idx : Fin MAX_TIMER) (st : State × List Event) (q : TimerPtr)
    (hs : st.1.Timers_List idx = some q) (ha : (st.1.mem q).TimerArmed = true)
    (hd : (st.1.mem q).TimeoutTick < c) :
    Timer_Check_body call c idx st =
      (call (st.1.mem q).TimerHandler (fireState st.1 idx q),
        st.2 ++ [⟨idx, q, (st.1.mem q).TimerHandler⟩]) := by
  unfold Timer_Check_body
  rw [hs]
  simp only
  rw [if_pos ⟨ha, hd⟩]
  simp [fireState, setSlot, setRec]

theorem Timer_Check_body_skip (call : pFunction → State → State) (c : Nat)
    (idx : Fin MAX_TIMER) (st : State × List Event)
    (h : ∀ q, st.1.Timers_List idx = some q →
      ¬ ((st.1.mem q).TimerArmed = true ∧ (st.1.mem q).TimeoutTick < c)) :
    Timer_Check_body call c idx st = st := by
  unfold Timer_Check_body
  cases hs : st.1.Timers_List idx with
  | none => rfl
  | some q =>
    simp only
    rw [if_neg (h q hs)]

theorem fireState_facts (s : State) (idx : Fin MAX_TIMER) (q : TimerPtr) :
    (fireState s idx q).TickCounter = s.TickCounter ∧
      ((fireState s idx q).mem q).TimerArmed = false ∧
      (fireState s idx q).Timers_List idx = none ∧
      (∀ j, j ≠ idx → (fireState s idx q).Timers_List j = s.Timers_List j) ∧
      (∀ r, r ≠ q → (fireState s idx q).mem r = s.mem r) ∧
      ((fireState s idx q).mem q).TimerHandler = (s.mem q).TimerHandler := by
  refine ⟨rfl, by simp [fireState, setSlot, setRec], by simp [fireState, setSlot, setRec],
    ?_, ?_, by simp [fireState, setSlot, setRec]⟩
  · intro j hj; simp [fireState, setSlot, setRec, Function.update_noteq hj]
  · intro r hr; simp [fireState, setSlot, setRec, Function.update_noteq hr]

theorem fireState_preserves (s : State) (idx : Fin MAX_TIMER) (q : TimerPtr)
    (hs : s.Timers_List idx = some q) (hc : Consistent s) (hn : NoDup s) :
    Consistent (fireState s idx q) ∧ NoDup (fireState s idx q) := by
  obtain ⟨_, h2, h3, h4, h5, _⟩ := fireState_facts s idx q
  refine ⟨?_, ?_⟩
  · intro r
    by_cases e : r = q
    · subst e
      rw [h2]
      simp only [Bool.false_eq_true, false_iff, not_exists]
      intro j hj
      by_cases hji : j = idx
      · rw [hji, h3] at hj; cases hj
      · rw [h4 j hji] at hj
        exact hji (hn j idx r hj hs)
    · rw [h5 r e, hc r]
      constructor
      · rintro ⟨j, hj⟩
        have hji : j ≠ idx := by
          intro e2; rw [e2, hs] at hj; injection hj with hj; exact e hj.symm
        exact ⟨j, by rw [h4 j hji]; exact hj⟩
      · rintro ⟨j, hj⟩
        by_cases hji : j = idx
        · rw [hji, h3] at hj; cases hj
        · rw [h4 j hji] at hj; exact ⟨j, hj⟩
  · intro a b r ha hb
    by_cases hai : a = idx
    · rw [hai, h3] at ha; cases ha
    · by_cases hbi : b = idx
      · rw [hbi, h3] at hb; cases hb
      · rw [h4 a hai] at ha
        rw [h4 b hbi] at hb
        exact hn a b r ha hb

/-- A slot holding a timer other than `p`, whose handler is not `f`: the loop body
of `Timer_Check` either skips it or fires it with an idle handler. -/
theorem Timer_Check_body_other (p : TimerPtr) (f : pFunction) (d : Nat) (c : Nat)
    (idx : Fin MAX_TIMER) (st : State × List Event) (q : TimerPtr)
    (hs : st.1.Timers_List idx = some q) (hh : (st.1.mem q).TimerHandler ≠ f) :
    Timer_Check_body (rearmCall p f d) c idx st = st ∨
      Timer_Check_body (rearmCall p f d) c idx st =
        (fireState st.1 idx q, st.2 ++ [⟨idx, q, (st.1.mem q).TimerHandler⟩]) := by
  by_cases hdue : (st.1.mem q).TimerArmed = true ∧ (st.1.mem q).TimeoutTick < c
  · right
    rw [Timer_Check_body_fire (rearmCall p f d) c idx st q hs hdue.1 hdue.2]
    simp only [rearmCall, if_neg hh]
  · left
    apply Timer_Check_body_skip
    intro r hr
    rw [hs] at hr
    injection hr with hr
    subst hr
    exact hdue

theorem handlerCount_append_ne (f : pFunction) (tr : List Event) (e : Event)
    (h : e.handler ≠ f) : handlerCount f (tr ++ [e]) = handlerCount f tr := by
  simp [handlerCount, List.countP_append, h]

theorem handlerCount_append_eq (f : pFunction) (tr : List Event) (e : Event)
    (h : e.handler = f) : handlerCount f (tr ++ [e]) = handlerCount f tr + 1 := by
  simp [handlerCount, List.countP_append, h]

/-- The common part of `RearmInv` survives firing another timer. -/
theorem fire_other_common (p : TimerPtr) (f : pFunction) (st : State) (idx : Fin MAX_TIMER)
    (q : TimerPtr) (hs : st.Timers_List idx = some q) (hqp : q ≠ p)
    (hc : Consistent st) (hn : NoDup st)
    (hoth : ∀ j r, st.Timers_List j = some r → r ≠ p → (st.mem r).TimerHandler ≠ f) :
    Consistent (fireState st idx q) ∧ NoDup (fireState st idx q) ∧
      (∀ j r, (fireState st idx q).Timers_List j = some r → r ≠ p →
        ((fireState st idx q).mem r).TimerHandler ≠ f) ∧
      (fireState st idx q).mem p = st.mem p ∧
      (∀ j, st.Timers_List j = some p → (fireState st idx q).Timers_List j = some p) := by
  obtain ⟨_, h2, h3, h4, h5, h6⟩ := fireState_facts st idx q
  have hp := fireState_preserves st idx q hs hc hn
  refine ⟨hp.1, hp.2, ?_, h5 p hqp.symm, ?_⟩
  · intro j r hj hr
    have hji : j ≠ idx := by
      intro e; rw [e, h3] at hj; cases hj
    rw [h4 j hji] at hj
    by_cases e : r = q
    · subst e
      rw [h6]; exact hoth j r hj hr
    · rw [h5 r e]; exact hoth j r hj hr
  · intro j hj
    have hji : j ≠ idx := by
      intro e; rw [e, hs] at hj; injection hj with hj; exact hqp hj
    rw [h4 j hji]; exact hj

theorem RearmInv_step (s : State) (p : TimerPtr) (f : pFunction) (d : Nat) (i : Fin MAX_TIMER)
    (hdue : dueRec s p) (hf : (s.mem p).TimerHandler = f)
    (idx : Fin MAX_TIMER) (st : State × List Event) (h : RearmInv s p f d i idx.1 st) :
    RearmInv s p f d i (idx.1 + 1)
      (Timer_Check_body (rearmCall p f d) s.TickCounter idx st) := by
  obtain ⟨htick, hc, hn, hoth, hphase⟩ := h
  -- a slot that holds nothing, or a timer other than `p`
  have hother : ∀ (hq : ∀ q, st.1.Timers_List idx = some q → q ≠ p),
      (st.1.Timers_List i = some p → idx ≠ i) →
      RearmInv s p f d i (idx.1 + 1)
        (Timer_Check_body (rearmCall p f d) s.TickCounter idx st) := by
    intro hq hidx
    have hphase2 : ∀ (st2 : State × List Event), st2.1.mem p = st.1.mem p →
        (∀ j, st.1.Timers_List j = some p → st2.1.Timers_List j = some p) →
        handlerCount f st2.2 = handlerCount f st.2 →
        ((idx.1 + 1 ≤ i.1 ∧ st2.1.Timers_List i = some p ∧ st2.1.mem p = s.mem p ∧
            handlerCount f st2.2 = 0) ∨
          (i.1 < idx.1 + 1 ∧
            st2.1.mem p =
              { TimerArmed := true, TimeoutTick := (s.TickCounter + d) % 2 ^ 32,
                TimerHandler := f } ∧
            (∃ j : Fin MAX_TIMER, j ≤ i ∧ st2.1.Timers_List j = some p) ∧
            handlerCount f st2.2 = 1)) := by
      intro st2 hm hsl hcnt
      rcases hphase with ⟨h1, h2, h3, h4⟩ | ⟨h1, h2, ⟨j, hj1, hj2⟩, h4⟩
      · left
        have hne : idx.1 ≠ i.1 := fun e => hidx h2 (Fin.ext e)
        exact ⟨by omega, hsl i h2, by rw [hm]; exact h3, by rw [hcnt]; exact h4⟩
      · right
        exact ⟨by omega, by rw [hm]; exact h2, ⟨j, hj1, hsl j hj2⟩, by rw [hcnt]; exact h4⟩
    cases hs : st.1.Timers_List idx with
    | none =>
      rw [Timer_Check_body_skip _ _ _ _ (by intro q hq2; rw [hs] at hq2; cases hq2)]
      exact ⟨htick, hc, hn, hoth, hphase2 st rfl (fun _ h => h) rfl⟩
    | some q =>
      have hqp := hq q hs
      have hh := hoth idx q hs hqp
      rcases Timer_Check_body_other p f d s.TickCounter idx st q hs hh with e | e
      · rw [e]
        exact ⟨htick, hc, hn, hoth, hphase2 st rfl (fun _ h => h) rfl⟩
      · rw [e]
        obtain ⟨a1, a2, a3, a4, a5⟩ := fire_other_common p f st.1 idx q hs hqp hc hn hoth
        exact ⟨htick, a1, a2, a3,
          hphase2 (fireState st.1 idx q, _) a4 a5 (handlerCount_append_ne f _ _ hh)⟩
  by_cases hidx : idx = i
  · subst hidx
    rcases hphase with ⟨h1, h2, h3, h4⟩ | ⟨h1, h2, ⟨j, hj1, hj2⟩, h4⟩
    · -- the slot of `p`: it fires and the handler arms it again
      have ha : (st.1.mem p).TimerArmed = true := by rw [h3]; exact hdue.1
      have hd : (st.1.mem p).TimeoutTick < s.TickCounter := by rw [h3]; exact hdue.2
      have hhp : (st.1.mem p).TimerHandler = f := by rw [h3]; exact hf
      rw [Timer_Check_body_fire (rearmCall p f d) s.TickCounter idx st p h2 ha hd, hhp]
      simp only [rearmCall, if_true]
      obtain ⟨b1, b2, b3, b4, b5, b6⟩ := fireState_facts st.1 idx p
      have hpres := fireState_preserves st.1 idx p h2 hc hn
      obtain ⟨r, hr1, hr2, hr3⟩ :=
        Timer_Start_free_form (fireState st.1 idx p) p f d idx b3 b2
      have hpres2 := Timer_Start_preserves (fireState st.1 idx p) p f d hpres.1 hpres.2
      rw [hr3] at hpres2 ⊢
      refine ⟨by simp only [b1, htick], hpres2.1, hpres2.2, ?_, Or.inr ⟨by omega, ?_, ?_, ?_⟩⟩
      · intro j q hj hq
        simp only [Function.update_noteq hq]
        simp only at hj
        have hjr : j ≠ r := by
          intro e; rw [e, Function.update_same] at hj
          injection hj with hj; exact hq hj.symm
        rw [Function.update_noteq hjr] at hj
        have hji : j ≠ idx := by
          intro e; rw [e, b3] at hj; cases hj
        rw [b4 j hji] at hj
        rw [b5 q hq]
        exact hoth j q hj hq
      · simp only [Function.update_same, b1, htick]
      · exact ⟨r, hr1, by simp⟩
      · rw [handlerCount_append_eq f _ _ rfl, h4]
    · omega
  · apply hother
    · intro q hq hqp
      subst hqp
      rcases hphase with ⟨h1, h2, h3, h4⟩ | ⟨h1, h2, ⟨j, hj1, hj2⟩, h4⟩
      · exact hidx (hn idx i q hq h2)
      · have := hn idx j q hq hj2
        subst this
        have : idx.1 ≤ i.1 := hj1
        omega
    · intro _; exact hidx

theorem Timer_Check_rearm_inv (s : State) (p : TimerPtr) (f : pFunction) (d : Nat)
    (i : Fin MAX_TIMER) (hc : Consistent s) (hn : NoDup s) (hs : s.Timers_List i = some p)
    (hdue : dueRec s p) (hf : (s.mem p).TimerHandler = f)
    (hoth : ∀ j q, s.Timers_List j = some q → q ≠ p → (s.mem q).TimerHandler ≠ f) :
    RearmInv s p f d i MAX_TIMER (Timer_Check (rearmCall p f d) s) := by
  unfold Timer_Check
  apply forLoop_induct (Timer_Check_body (rearmCall p f d) s.TickCounter)
    (RearmInv s p f d i) MAX_TIMER 0 (s, []) (by omega) (by omega)
  · exact ⟨rfl, hc, hn, hoth, Or.inl ⟨Nat.zero_le _, hs, rfl, rfl⟩⟩
  · intro idx t _ ht
    exact RearmInv_step s p f d i hdue hf idx t ht

/-- C5 fails as stated: a state that satisfies the armed/slot consistency
invariant, with the armed and due record 3 held by slots 2 and 5 and handler 3
calling `Timer_Start` on record 3; after `Timer_Check` the record is referenced
by slots 0 and 5, not by exactly one slot. -/
theorem rearm_from_handler_two_slots :
    Consistent twoSlotState ∧ twoSlotState.Timers_List 2 = some 3 ∧ dueRec twoSlotState 3 ∧
      (twoSlotState.mem 3).TimerHandler = 3 ∧
      (Timer_Check (rearmCall 3 3 4) twoSlotState).1.Timers_List 0 = some 3 ∧
      (Timer_Check (rearmCall 3 3 4) twoSlotState).1.Timers_List 5 = some 3 ∧
      ¬ ∃! j, (Timer_Check (rearmCall 3 3 4) twoSlotState).1.Timers_List j = some 3 := by
  refine ⟨?_, by decide, by decide, by decide, by decide, by decide, ?_⟩
  · intro q
    simp only [twoSlotState, decide_eq_true_eq]
    constructor
    · intro h; exact ⟨2, by simp [h]⟩
    · rintro ⟨j, hj⟩
      split at hj
      · injection hj with hj; exact hj.symm
      · cases hj
  · rintro ⟨j, _, huniq⟩
    have h0 : (0 : Fin MAX_TIMER) = j := huniq 0 (by decide)
    have h5 : (5 : Fin MAX_TIMER) = j := huniq 5 (by decide)
    rw [← h0] at h5
    exact absurd h5 (by decide)

/-- C5, amended. In `Timer_Check` the handler of a fired timer is called in a
state where that timer is disarmed and its slot is `NULL`, and in such a state
`Timer_Start` on that timer returns `tmOK`.  For every state that satisfies the
armed/slot consistency invariant and in which no timer occupies two slots: when
the timer `p` is due in slot `i`, its handler `f` (the handler of no other
timer in the table) calls `Timer_Start(p, f, d)` and the other handlers leave the
state alone, then on return of `Timer_Check` the timer is armed, exactly one
slot references it, its deadline is `(TickCounter + d) mod 2^32` and `f` was
called once in that run. -/
theorem rearm_from_handler :
    (∀ (call : pFunction → State → State) (c : Nat) (idx : Fin MAX_TIMER)
        (st : State × List Event) (p : TimerPtr) (f : pFunction) (d : Nat),
      st.1.Timers_List idx = some p → (st.1.mem p).TimerArmed = true →
      (st.1.mem p).TimeoutTick < c →
        ∃ s2, Timer_Check_body call c idx st =
            (call (st.1.mem p).TimerHandler s2,
              st.2 ++ [⟨idx, p, (st.1.mem p).TimerHandler⟩]) ∧
          (s2.mem p).TimerArmed = false ∧ s2.Timers_List idx = none ∧
          (Timer_Start s2 p f d).1 = tmOK) ∧
    (∀ (s : State) (p : TimerPtr) (f : pFunction) (d : Nat) (i : Fin MAX_TIMER),
      Consistent s → NoDup s → s.Timers_List i = some p → dueRec s p →
      (s.mem p).TimerHandler = f →
      (∀ j q, s.Timers_List j = some q → q ≠ p → (s.mem q).TimerHandler ≠ f) →
        ((Timer_Check (rearmCall p f d) s).1.mem p).TimerArmed = true ∧
        (∃! j, (Timer_Check (rearmCall p f d) s).1.Timers_List j = some p) ∧
        ((Timer_Check (rearmCall p f d) s).1.mem p).TimeoutTick =
          (s.TickCounter + d) % 2 ^ 32 ∧
        (Timer_Check (rearmCall p f d) s).1.TickCounter = s.TickCounter ∧
        handlerCount f (Timer_Check (rearmCall p f d) s).2 = 1) := by
  refine ⟨?_, ?_⟩
  · intro call c idx st p f d hs ha hd
    obtain ⟨_, b2, b3, _, _, _⟩ := fireState_facts st.1 idx p
    refine ⟨fireState st.1 idx p, Timer_Check_body_fire call c idx st p hs ha hd, b2, b3, ?_⟩
    obtain ⟨r, _, _, hr⟩ := Timer_Start_free_form (fireState st.1 idx p) p f d idx b3 b2
    rw [hr]
  · intro s p f d i hc hn hs hdue hf hoth
    obtain ⟨htick, _, hn2, _, hphase⟩ := Timer_Check_rearm_inv s p f d i hc hn hs hdue hf hoth
    rcases hphase with ⟨h1, _⟩ | ⟨_, h2, ⟨j, _, hj⟩, h4⟩
    · have := i.2
      omega
    · refine ⟨by rw [h2], ⟨j, hj, ?_⟩, by rw [h2], htick, h4⟩
      intro k hk
      exact hn2 k j p hk hj

theorem rearmDemoState_good : Consistent rearmDemoState ∧ NoDup rearmDemoState :=
  run_preserves _ (Timer_Init emptyState) (Timer_Init_good emptyState (fun _ => rfl)).1
    (Timer_Init_good emptyState (fun _ => rfl)).2

theorem rearmDemoState_others (j : Fin MAX_TIMER) (q : TimerPtr)
    (hj : rearmDemoState.Timers_List j = some q) (hq : q ≠ 10) :
    (rearmDemoState.mem q).TimerHandler ≠ 20 := by
  have h : ∀ j : Fin MAX_TIMER, rearmDemoState.Timers_List j = none ∨
      rearmDemoState.Timers_List j = some 10 ∨ rearmDemoState.Timers_List j = some 11 := by
    decide
  rcases h j with h | h | h
  · rw [h] at hj; cases hj
  · rw [h] at hj; injection hj with hj; exact absurd hj.symm hq
  · rw [h] at hj; injection hj with hj; subst hj; decide

theorem rearm_from_handler_witness :
    (∃ s2, Timer_Check_body idleCall 12 0 (rearmDemoState, []) =
          (idleCall (rearmDemoState.mem 10).TimerHandler s2,
            [] ++ [⟨0, 10, (rearmDemoState.mem 10).TimerHandler⟩]) ∧
        (s2.mem 10).TimerArmed = false ∧ s2.Timers_List 0 = none ∧
        (Timer_Start s2 10 20 3).1 = tmOK) ∧
      ((Timer_Check (rearmCall 10 20 3) rearmDemoState).1.mem 10).TimerArmed = true ∧
      (∃! j, (Timer_Check (rearmCall 10 20 3) rearmDemoState).1.Timers_List j = some 10) ∧
      ((Timer_Check (rearmCall 10 20 3) rearmDemoState).1.mem 10).TimeoutTick =
        (rearmDemoState.TickCounter + 3) % 2 ^ 32 ∧
      (Timer_Check (rearmCall 10 20 3) rearmDemoState).1.TickCounter =
        rearmDemoState.TickCounter ∧
      handlerCount 20 (Timer_Check (rearmCall 10 20 3) rearmDemoState).2 = 1 :=
  ⟨rearm_from_handler.1 idleCall 12 0 (rearmDemoState, []) 10 20 3
      (by decide) (by decide) (by decide),
    rearm_from_handler.2 rearmDemoState 10 20 3 0 rearmDemoState_good.1 rearmDemoState_good.2
      (by decide) (by decide) (by decide) rearmDemoState_others⟩

/-! ## Delay zero -/

theorem run_pending (p : TimerPtr) (f : pFunction) (D : Nat) (ops : List Op) :
    ∀ s, Pending s p f D → (∀ o ∈ ops, o.target ≠ some p ∧ o ≠ Op.check) →
      Pending (run s ops) p f D := by
  induction ops with
  | nil => intro s hs _; exact hs
  | cons o ops ih =>
    intro s hs hops
    have ho := hops o (List.mem_cons_self _ _)
    exact ih (step s o) (step_pending s o p f D ho.1 ho.2 hs)
      (fun o' ho' => hops o' (List.mem_cons_of_mem _ ho'))

theorem check_pending_handler (s : State) (p : TimerPtr) (f : pFunction) (D : Nat)
    (h : Pending s p f D) :
    ∀ ev ∈ (Timer_Check idleCall s).2, ev.timer = p → ev.handler = f := by
  intro ev hev hp
  rw [Timer_Check_event_handler idleCall (fun _ _ => rfl) s ev hev, hp, h.1]

/-- C11 fails as stated: `Timer_Start` with delay 0 returns `tmOK` at counter 0, and
the `Timer_Check` that follows at the same counter invokes nothing and leaves
the timer armed. -/
theorem zero_delay_not_fired_at_same_tick :
    (Timer_Start emptyState 100 7 0).1 = tmOK ∧
      ((Timer_Start emptyState 100 7 0).2.mem 100).TimeoutTick = 0 ∧
      (Timer_Start emptyState 100 7 0).2.TickCounter = 0 ∧
      (Timer_Check idleCall (Timer_Start emptyState 100 7 0).2).2 = [] ∧
      ((Timer_Check idleCall (Timer_Start emptyState 100 7 0).2).1.mem 100).TimerArmed = true := by
  decide

/-- C11, amended. After `Timer_Start(timer, handler, 0)` returned `tmOK` at tick `t`,
and calls that are neither `Timer_Check` nor a `Timer_Start` or `Timer_Stop` on
that timer, the next `Timer_Check` invokes the handler once and disarms the
timer when the tick counter at that call is above `t`; when the counter is not
above `t` it invokes nothing for the timer and leaves it armed. -/
theorem zero_delay_fires_after_a_tick (s : State) (p : TimerPtr) (f : pFunction)
    (ops : List Op) (ht : s.TickCounter < 2 ^ 32) (hok : (Timer_Start s p f 0).1 = tmOK)
    (hops : ∀ o ∈ ops, o.target ≠ some p ∧ o ≠ Op.check) :
    (s.TickCounter < (run (Timer_Start s p f 0).2 ops).TickCounter →
      firedCount p (Timer_Check idleCall (run (Timer_Start s p f 0).2 ops)).2 = 1 ∧
      (∀ ev ∈ (Timer_Check idleCall (run (Timer_Start s p f 0).2 ops)).2,
        ev.timer = p → ev.handler = f) ∧
      ((Timer_Check idleCall (run (Timer_Start s p f 0).2 ops)).1.mem p).TimerArmed = false) ∧
    ((run (Timer_Start s p f 0).2 ops).TickCounter ≤ s.TickCounter →
      firedCount p (Timer_Check idleCall (run (Timer_Start s p f 0).2 ops)).2 = 0 ∧
      ((Timer_Check idleCall (run (Timer_Start s p f 0).2 ops)).1.mem p).TimerArmed = true) := by
  have hp := Timer_Start_pending s p f 0 hok
  rw [Nat.add_zero, Nat.mod_eq_of_lt ht] at hp
  have hp2 := run_pending p f s.TickCounter ops _ hp hops
  refine ⟨?_, ?_⟩
  · intro hlt
    have h := check_pending_due _ p f s.TickCounter hp2 hlt
    exact ⟨h.2, check_pending_handler _ p f s.TickCounter hp2, h.1⟩
  · intro hle
    have h := check_pending_early _ p f s.TickCounter hp2 hle
    refine ⟨h.2, ?_⟩
    have := h.1.1
    simp only [step] at this
    rw [this]

theorem zero_delay_fires_after_a_tick_witness :
    (0 < (run (Timer_Start emptyState 100 7 0).2 [Op.tick]).TickCounter →
      firedCount 100 (Timer_Check idleCall (run (Timer_Start emptyState 100 7 0).2 [Op.tick])).2
        = 1 ∧
      (∀ ev ∈ (Timer_Check idleCall (run (Timer_Start emptyState 100 7 0).2 [Op.tick])).2,
        ev.timer = 100 → ev.handler = 7) ∧
      ((Timer_Check idleCall (run (Timer_Start emptyState 100 7 0).2 [Op.tick])).1.mem
        100).TimerArmed = false) ∧
    ((run (Timer_Start emptyState 100 7 0).2 [Op.tick]).TickCounter ≤ 0 →
      firedCount 100 (Timer_Check idleCall (run (Timer_Start emptyState 100 7 0).2 [Op.tick])).2
        = 0 ∧
      ((Timer_Check idleCall (run (Timer_Start emptyState 100 7 0).2 [Op.tick])).1.mem
        100).TimerArmed = true) :=
  zero_delay_fires_after_a_tick emptyState 100 7 [Op.tick] (by decide) (by decide) (by decide)

/-! ## The return code of Timer_Start -/

theorem Timer_Start_ok_of_armed_slot (s : State) (timer : TimerPtr) (f : pFunction) (d : Nat)
    (i : Fin MAX_TIMER) (harm : (s.mem timer).TimerArmed = true)
    (hslot : s.Timers_List i = some timer) : (Timer_Start s timer f d).1 = tmOK := by
  obtain ⟨r, hr, _, _⟩ :=
    searchLoop_some (fun idx => decide (s.Timers_List idx = some timer)) i (by simpa using hslot)
  have hidx : Timer_Start_idx s timer = r.1 := by
    simp only [Timer_Start_idx, harm, if_true]
    exact hr
  rw [Timer_Start_of_idx s timer f d r hidx]

theorem Timer_Start_error_of_unarmed_full (s : State) (timer : TimerPtr) (f : pFunction)
    (d : Nat) (harm : (s.mem timer).TimerArmed = false) (hfull : ∀ i, s.Timers_List i ≠ none) :
    Timer_Start s timer f d = (tmERROR, s) := by
  apply Timer_Start_of_nidx
  simp only [Timer_Start_idx, harm, Bool.false_eq_true, if_false]
  apply searchLoop_none
  intro j
  simpa using hfull j

/-- C12. In a state satisfying the armed/slot consistency invariant, `Timer_Start`
returns `tmERROR` if and only if the timer is not armed and no slot is `NULL`;
in every other case it returns `tmOK`; and it never returns anything but
`tmOK` or `tmERROR`. -/
theorem Timer_Start_error_iff (s : State) (timer : TimerPtr) (f : pFunction) (d : Nat)
    (hc : Consistent s) :
    ((Timer_Start s timer f d).1 = tmERROR ↔
      ((s.mem timer).TimerArmed = false ∧ ∀ i, s.Timers_List i ≠ none)) ∧
    (¬ ((s.mem timer).TimerArmed = false ∧ ∀ i, s.Timers_List i ≠ none) →
      (Timer_Start s timer f d).1 = tmOK) ∧
    ((Timer_Start s timer f d).1 = tmOK ∨ (Timer_Start s timer f d).1 = tmERROR) := by
  have hok : ¬ ((s.mem timer).TimerArmed = false ∧ ∀ i, s.Timers_List i ≠ none) →
      (Timer_Start s timer f d).1 = tmOK := by
    intro hn
    by_cases ha : (s.mem timer).TimerArmed = true
    · obtain ⟨i, hi⟩ := (hc timer).1 ha
      exact Timer_Start_ok_of_armed_slot s timer f d i ha hi
    · have ha2 : (s.mem timer).TimerArmed = false := by simpa using ha
      have hex : ∃ i, s.Timers_List i = none := by
        by_contra hne
        exact hn ⟨ha2, fun i hi => hne ⟨i, hi⟩⟩
      obtain ⟨i, hi⟩ := hex
      obtain ⟨r, _, _, hr⟩ := Timer_Start_free_form s timer f d i hi ha2
      rw [hr]
  refine ⟨⟨?_, ?_⟩, hok, ?_⟩
  · intro herr
    by_contra hn
    have := hok hn
    rw [herr] at this
    cases this
  · rintro ⟨ha, hfull⟩
    rw [Timer_Start_error_of_unarmed_full s timer f d ha hfull]
  · rcases Timer_Start_cases s timer f d with h | ⟨i, _, h⟩
    · right; rw [h]
    · left; rw [h]

theorem Timer_Start_error_iff_witness :
    ((Timer_Start rearmDemoState 12 22 5).1 = tmERROR ↔
      ((rearmDemoState.mem 12).TimerArmed = false ∧ ∀ i, rearmDemoState.Timers_List i ≠ none)) ∧
    (¬ ((rearmDemoState.mem 12).TimerArmed = false ∧
        ∀ i, rearmDemoState.Timers_List i ≠ none) →
      (Timer_Start rearmDemoState 12 22 5).1 = tmOK) ∧
    ((Timer_Start rearmDemoState 12 22 5).1 = tmOK ∨
      (Timer_Start rearmDemoState 12 22 5).1 = tmERROR) :=
  Timer_Start_error_iff rearmDemoState 12 22 5 rearmDemoState_good.1

/-! ## What Timer_Check leaves alone -/

theorem firesAt_idx (s : State) (i : Fin MAX_TIMER) (e : Event) (h : firesAt s i = some e) :
    e.idx = i := by
  unfold firesAt at h
  cases hs : s.Timers_List i with
  | none => rw [hs] at h; cases h
  | some q =>
    rw [hs] at h
    simp only at h
    split at h
    · cases h; rfl
    · cases h

theorem Timer_Check_event_source (call : pFunction → State → State)
    (hcall : ∀ f t, call f t = t) (s : State) (e : Event)
    (he : e ∈ (Timer_Check call s).2) :
    s.Timers_List e.idx = some e.timer ∧ dueRec s e.timer := by
  rw [Timer_Check_idle_eq call hcall s, filterMap_range_firesAtNat, List.mem_filterMap] at he
  obtain ⟨i, _, hi⟩ := he
  have h1 := firesAt_idx s i e hi
  have h2 := firesAt_timer s i e hi
  rw [h1]
  exact ⟨h2.1, h2.2.1⟩

/-- C13. With handlers that leave the state alone, a slot that is `NULL`, or whose
timer is disarmed, or whose timer's `TimeoutTick` is not below the counter read
at entry, holds the same reference after `Timer_Check`; its timer record is
unchanged; no invocation is made for that slot or for that timer; and the tick
counter is unchanged. -/
theorem Timer_Check_leaves_unexpired_slot (call : pFunction → State → State) (s : State)
    (i : Fin MAX_TIMER) (hcall : ∀ f t, call f t = t)
    (h : s.Timers_List i = none ∨
      ∃ q, s.Timers_List i = some q ∧
        ((s.mem q).TimerArmed = false ∨ s.TickCounter ≤ (s.mem q).TimeoutTick)) :
    (Timer_Check call s).1.Timers_List i = s.Timers_List i ∧
      (∀ q, s.Timers_List i = some q →
        (Timer_Check call s).1.mem q = s.mem q ∧
        ∀ e ∈ (Timer_Check call s).2, e.timer ≠ q) ∧
      (∀ e ∈ (Timer_Check call s).2, e.idx ≠ i) ∧
      (Timer_Check call s).1.TickCounter = s.TickCounter := by
  have hnd : ∀ q, s.Timers_List i = some q → ¬ dueRec s q := by
    intro q hq hd
    rcases h with h | ⟨r, hr, h⟩
    · rw [h] at hq; cases hq
    · rw [hr] at hq
      injection hq with hq
      subst hq
      rcases h with h | h
      · rw [hd.1] at h; cases h
      · have := hd.2
        omega
  have hf : firesAt s i = none := by
    unfold firesAt
    cases hs : s.Timers_List i with
    | none => rfl
    | some q =>
      simp only
      rw [if_neg (fun hh => hnd q hs hh.1)]
  refine ⟨?_, ?_, ?_, ?_⟩
  · rw [Timer_Check_idle_eq call hcall s]
    simp only [checkUpTo, hf]
    rw [if_neg (fun hh => by simp at hh)]
  · intro q hq
    refine ⟨?_, ?_⟩
    · rw [Timer_Check_idle_eq call hcall s]
      simp only [checkUpTo]
      rw [if_neg (fun hh => hnd q hq hh.1)]
    · intro e he heq
      have := (Timer_Check_event_source call hcall s e he).2
      rw [heq] at this
      exact hnd q hq this
  · intro e he heq
    have h1 := Timer_Check_event_source call hcall s e he
    rw [heq] at h1
    exact hnd e.timer h1.1 h1.2
  · rw [Timer_Check_idle_eq call hcall s]
    rfl

theorem Timer_Check_leaves_unexpired_slot_witness :
    (Timer_Check idleCall (ticks 3 armEight.2)).1.Timers_List 2 =
        (ticks 3 armEight.2).Timers_List 2 ∧
      (∀ q, (ticks 3 armEight.2).Timers_List 2 = some q →
        (Timer_Check idleCall (ticks 3 armEight.2)).1.mem q = (ticks 3 armEight.2).mem q ∧
        ∀ e ∈ (Timer_Check idleCall (ticks 3 armEight.2)).2, e.timer ≠ q) ∧
      (∀ e ∈ (Timer_Check idleCall (ticks 3 armEight.2)).2, e.idx ≠ 2) ∧
      (Timer_Check idleCall (ticks 3 armEight.2)).1.TickCounter =
        (ticks 3 armEight.2).TickCounter :=
  Timer_Check_leaves_unexpired_slot idleCall (ticks 3 armEight.2) 2 (fun _ _ => rfl)
    (Or.inr ⟨12, by decide, Or.inr (by decide)⟩)

/-! ## The writers of the tick counter -/

/-- C15. The interrupt handler `vTIM2InterruptHandler` takes the tick counter from
`c` to `(c + 1) mod 2^32` and leaves the slots and the timer records as they
were; `Timer_Start`, `Timer_Stop`, `Timer_IsActive` and `Timer_Check` (handlers
leaving the state alone) return with the tick counter they were entered with. -/
theorem tick_interrupt_only_counter_writer (call : pFunction → State → State) (s : State)
    (timer : TimerPtr) (f : pFunction) (d : Nat) (hcall : ∀ g t, call g t = t) :
    (vTIM2InterruptHandler s).TickCounter = (s.TickCounter + 1) % 2 ^ 32 ∧
      (vTIM2InterruptHandler s).Timers_List = s.Timers_List ∧
      (vTIM2InterruptHandler s).mem = s.mem ∧
      (Timer_Start s timer f d).2.TickCounter = s.TickCounter ∧
      (Timer_Stop s timer).TickCounter = s.TickCounter ∧
      (Timer_IsActive s).2.TickCounter = s.TickCounter ∧
      (Timer_Check call s).1.TickCounter = s.TickCounter := by
  refine ⟨rfl, rfl, rfl, ?_, ?_, rfl, ?_⟩
  · rcases Timer_Start_cases s timer f d with h | ⟨i, _, h⟩
    · rw [h]
    · rw [h]
  · rw [Timer_Stop_eq]; rfl
  · rw [Timer_Check_idle_eq call hcall s]; rfl

theorem tick_interrupt_only_counter_writer_witness :
    (vTIM2InterruptHandler wrapState).TickCounter = (wrapState.TickCounter + 1) % 2 ^ 32 ∧
      (vTIM2InterruptHandler wrapState).Timers_List = wrapState.Timers_List ∧
      (vTIM2InterruptHandler wrapState).mem = wrapState.mem ∧
      (Timer_Start wrapState 100 7 5).2.TickCounter = wrapState.TickCounter ∧
      (Timer_Stop wrapState 100).TickCounter = wrapState.TickCounter ∧
      (Timer_IsActive wrapState).2.TickCounter = wrapState.TickCounter ∧
      (Timer_Check idleCall wrapState).1.TickCounter = wrapState.TickCounter :=
  tick_interrupt_only_counter_writer idleCall wrapState 100 7 5 (fun _ _ => rfl)

/-! ## Wrap of the tick counter -/

/-- C14. A deadline computed before the counter wraps compares wrongly after the
wrap: at tick `2^32 - 2` a timer is armed with delay 1 (deadline `2^32 - 1`);
after 2 tick interrupts, more than the delay, the counter is 0, not above the
deadline, and `Timer_Check` invokes nothing and leaves the timer armed. -/
theorem deadline_missed_after_wrap :
    wrapState.TickCounter = 2 ^ 32 - 2 ∧ wrapState.TickCounter + 1 < 2 ^ 32 ∧ 1 < 2 ∧
      (Timer_Start wrapState 100 7 1).1 = tmOK ∧
      ((Timer_Start wrapState 100 7 1).2.mem 100).TimeoutTick = 2 ^ 32 - 1 ∧
      (ticks 2 (Timer_Start wrapState 100 7 1).2).TickCounter = 0 ∧
      (Timer_Check idleCall (ticks 2 (Timer_Start wrapState 100 7 1).2)).2 = [] ∧
      ((Timer_Check idleCall (ticks 2 (Timer_Start wrapState 100 7 1).2)).1.mem
        100).TimerArmed = true := by
  decide

/-! ## Counting armed timers -/

theorem mem_slotTimers (s : State) (p : TimerPtr) :
    p ∈ slotTimers s ↔ ∃ i, s.Timers_List i = some p := by
  simp [slotTimers, List.mem_filterMap]

theorem slotTimers_length (s : State) : (slotTimers s).length = occupiedCount s := by
  rw [slotTimers, occupiedCount, List.length_filterMap_eq_countP]

theorem slotTimers_length_le (s : State) : (slotTimers s).length ≤ MAX_TIMER := by
  have h := List.length_filterMap_le s.Timers_List (List.finRange MAX_TIMER)
  rw [List.length_finRange] at h
  exact h

theorem slotTimers_nodup (s : State) (hn : NoDup s) : (slotTimers s).Nodup := by
  apply List.Nodup.filterMap _ (List.nodup_finRange MAX_TIMER)
  intro a a' b ha ha'
  exact hn a a' b ha ha'

theorem armed_card_le (s : State) (hc : Consistent s) (T : Finset TimerPtr) :
    (T.filter (fun p => (s.mem p).TimerArmed = true)).card ≤ MAX_TIMER := by
  have hsub : T.filter (fun p => (s.mem p).TimerArmed = true) ⊆ (slotTimers s).toFinset := by
    intro p hp
    rw [Finset.mem_filter] at hp
    rw [List.mem_toFinset, mem_slotTimers]
    exact (hc p).1 hp.2
  calc (T.filter (fun p => (s.mem p).TimerArmed = true)).card
      ≤ (slotTimers s).toFinset.card := Finset.card_le_card hsub
    _ ≤ (slotTimers s).length := List.toFinset_card_le _
    _ ≤ MAX_TIMER := slotTimers_length_le s

/-- C16. In every state reached from the state after `Timer_Init`, taken with all
records disarmed, by `Timer_Start`, `Timer_Stop`, tick-interrupt and
`Timer_Check` calls (handlers leaving the state alone), any finite set of timer
records contains at most `MAX_TIMER = 8` armed ones, whatever calls were made. -/
theorem reachable_armed_at_most_MAX_TIMER (s0 : State) (ops : List Op)
    (h0 : ∀ p, (s0.mem p).TimerArmed = false) (T : Finset TimerPtr) :
    (T.filter (fun p => ((run (Timer_Init s0) ops).mem p).TimerArmed = true)).card ≤ MAX_TIMER ∧
      MAX_TIMER = 8 :=
  ⟨armed_card_le _
    (run_preserves ops (Timer_Init s0) (Timer_Init_good s0 h0).1 (Timer_Init_good s0 h0).2).1 T,
    rfl⟩

theorem reachable_armed_at_most_MAX_TIMER_witness :
    (∀ p, (emptyState.mem p).TimerArmed = false) ∧
      ((Finset.range 30).filter
        (fun p => ((run (Timer_Init emptyState) armNineOps).mem p).TimerArmed = true)).card
        ≤ MAX_TIMER ∧ MAX_TIMER = 8 :=
  ⟨fun _ => rfl,
    reachable_armed_at_most_MAX_TIMER emptyState armNineOps (fun _ => rfl) (Finset.range 30)⟩

/-- C18. In every state reached from the state after `Timer_Init`, taken with all
records disarmed, by `Timer_Start`, `Timer_Stop`, tick-interrupt and
`Timer_Check` calls (handlers leaving the state alone), no timer is referenced
by two different slots, and the armed timers form a set whose size is the
number of occupied slots. -/
theorem reachable_no_timer_in_two_slots (s0 : State) (ops : List Op)
    (h0 : ∀ p, (s0.mem p).TimerArmed = false) :
    (∀ (i j : Fin MAX_TIMER) (p : TimerPtr),
      (run (Timer_Init s0) ops).Timers_List i = some p →
      (run (Timer_Init s0) ops).Timers_List j = some p → i = j) ∧
    ∃ T : Finset TimerPtr,
      (∀ p, p ∈ T ↔ ((run (Timer_Init s0) ops).mem p).TimerArmed = true) ∧
      T.card = occupiedCount (run (Timer_Init s0) ops) := by
  have hg := run_preserves ops (Timer_Init s0) (Timer_Init_good s0 h0).1 (Timer_Init_good s0 h0).2
  refine ⟨hg.2, (slotTimers (run (Timer_Init s0) ops)).toFinset, ?_, ?_⟩
  · intro p
    rw [List.mem_toFinset, mem_slotTimers]
    exact (hg.1 p).symm
  · rw [List.toFinset_card_of_nodup (slotTimers_nodup _ hg.2), slotTimers_length]

theorem reachable_no_timer_in_two_slots_witness :
    (∀ p, (emptyState.mem p).TimerArmed = false) ∧
    (∀ (i j : Fin MAX_TIMER) (p : TimerPtr),
      (run (Timer_Init emptyState) armNineOps).Timers_List i = some p →
      (run (Timer_Init emptyState) armNineOps).Timers_List j = some p → i = j) ∧
    ∃ T : Finset TimerPtr,
      (∀ p, p ∈ T ↔ ((run (Timer_Init emptyState) armNineOps).mem p).TimerArmed = true) ∧
      T.card = occupiedCount (run (Timer_Init emptyState) armNineOps) :=
  ⟨fun _ => rfl, reachable_no_timer_in_two_slots emptyState armNineOps (fun _ => rfl)⟩

/-! ## An armed record that no slot references -/

/-- C19. When a record's `TimerArmed` is TRUE and no slot references it (as after a
second `Timer_Init`, which clears the slots and not the records), `Timer_Start`
on it returns `tmERROR` and the state is the one before the call, whether or not
a slot is `NULL`; `Timer_Stop` on it changes nothing either, so its `TimerArmed`
stays TRUE. -/
theorem armed_unreferenced_timer_is_stuck (s : State) (timer : TimerPtr) (f : pFunction)
    (d : Nat) (harm : (s.mem timer).TimerArmed = true)
    (hno : ∀ i, s.Timers_List i ≠ some timer) :
    Timer_Start s timer f d = (tmERROR, s) ∧
      ((Timer_Stop s timer).mem timer).TimerArmed = true ∧
      Timer_Stop s timer = s := by
  refine ⟨?_, ?_, Timer_Stop_unreferenced s timer hno⟩
  · apply Timer_Start_of_nidx
    simp only [Timer_Start_idx, harm, if_true]
    apply searchLoop_none
    intro j
    simpa using hno j
  · rw [Timer_Stop_unreferenced s timer hno]
    exact harm

theorem armed_unreferenced_timer_is_stuck_witness :
    (reinitState.mem 100).TimerArmed = true ∧
      (∀ i, reinitState.Timers_List i ≠ some 100) ∧
      (∃ i, reinitState.Timers_List i = none) ∧
      Timer_Start reinitState 100 7 5 = (tmERROR, reinitState) ∧
      ((Timer_Stop reinitState 100).mem 100).TimerArmed = true ∧
      Timer_Stop reinitState 100 = reinitState :=
  ⟨by decide, by decide, by decide,
    armed_unreferenced_timer_is_stuck reinitState 100 7 5 (by decide) (by decide)⟩

/-! ## A deadline that wraps -/

/-- C20. When the tick `t` (a `u32`) and the delay `d ≤ 65535` have `t + d ≥ 2^32`,
a timer armed by a successful `Timer_Start` gets the deadline `(t + d) mod 2^32`,
which is below `t`, and a `Timer_Check` run right after, the counter still `t`,
invokes its handler once and disarms it. -/
theorem wrapped_deadline_fires_at_once (s : State) (p : TimerPtr) (f : pFunction) (d : Nat)
    (ht : s.TickCounter < 2 ^ 32) (hd : d ≤ 65535) (hw : 2 ^ 32 ≤ s.TickCounter + d)
    (hok : (Timer_Start s p f d).1 = tmOK) :
    ((Timer_Start s p f d).2.mem p).TimeoutTick = (s.TickCounter + d) % 2 ^ 32 ∧
      (s.TickCounter + d) % 2 ^ 32 < s.TickCounter ∧
      (Timer_Start s p f d).2.TickCounter = s.TickCounter ∧
      firedCount p (Timer_Check idleCall (Timer_Start s p f d).2).2 = 1 ∧
      (∀ ev ∈ (Timer_Check idleCall (Timer_Start s p f d).2).2, ev.timer = p → ev.handler = f) ∧
      ((Timer_Check idleCall (Timer_Start s p f d).2).1.mem p).TimerArmed = false := by
  have hp := Timer_Start_pending s p f d hok
  have hlt : (s.TickCounter + d) % 2 ^ 32 < s.TickCounter := by omega
  have htick : (Timer_Start s p f d).2.TickCounter = s.TickCounter := by
    rcases Timer_Start_cases s p f d with h | ⟨i, _, h⟩
    · rw [h]
    · rw [h]
  have h := check_pending_due _ p f _ hp (by rw [htick]; exact hlt)
  refine ⟨by rw [hp.1], hlt, htick, h.2, check_pending_handler _ p f _ hp, h.1⟩

theorem wrapped_deadline_fires_at_once_witness :
    wrapState.TickCounter < 2 ^ 32 ∧ 2 ^ 32 ≤ wrapState.TickCounter + 2 ∧
      ((Timer_Start wrapState 100 7 2).2.mem 100).TimeoutTick =
        (wrapState.TickCounter + 2) % 2 ^ 32 ∧
      (wrapState.TickCounter + 2) % 2 ^ 32 < wrapState.TickCounter ∧
      (Timer_Start wrapState 100 7 2).2.TickCounter = wrapState.TickCounter ∧
      firedCount 100 (Timer_Check idleCall (Timer_Start wrapState 100 7 2).2).2 = 1 ∧
      (∀ ev ∈ (Timer_Check idleCall (Timer_Start wrapState 100 7 2).2).2,
        ev.timer = 100 → ev.handler = 7) ∧
      ((Timer_Check idleCall (Timer_Start wrapState 100 7 2).2).1.mem 100).TimerArmed = false :=
  ⟨by decide, by decide,
    wrapped_deadline_fires_at_once wrapState 100 7 2 (by decide) (by decide) (by decide)
      (by decide)⟩

end Timers
